import Mathlib

/-!
# Face-recognition database: nearest neighbour, persistence, recognition

A shallow embedding of `src/src/database.cpp`.

Conventions of the embedding:

* `precision_t`, the type of the matrix elements and of the distances, is
  read as a rational: every finite floating-point value is one, the distance
  functions are parameters, and `nearest_neighbor` only compares their
  values, which takes no rounding; a NaN distance is outside the model;
* the `float` arithmetic of `db_recognize` is IEEE binary32 arithmetic on
  rationals, as on a target that evaluates `float` expressions in `float`:
  every operation rounds to the nearest value of 24 significant bits, ties
  to even;
* `int` is read as an unbounded integer: the counts and name lengths handled
  here stay far below `2^31`;
* a pointer into an array is the index of the element it points to, and a
  pointer that may be `NULL` is an `Option`;
* behaviour that C leaves undefined (reading outside an array, dereferencing
  `NULL`, reading past the end of the file) is a `fault`;
* a file is the sequence of the values written to it, one cell per `int`,
  per `char` and per `precision_t`.
-/

namespace FaceRec

/-! ## Data model -/

/-- The numeric type of matrix elements and distances. -/
abbrev precision_t := ℚ

/-- One `char`; `0` terminates a C string. -/
abbrev char_t := Nat

/-- Dense matrix: `rows`, `cols` and the element buffer. -/
structure matrix_t where
  rows : Int
  cols : Int
  data : List precision_t
deriving DecidableEq

/-- Type of the distance functions: `dist_func(A, i, B, j)` is the distance
between column `i` of `A` and column `j` of `B`. -/
abbrev dist_func_t := matrix_t → Int → matrix_t → Int → precision_t

/-- Undefined behaviour reached by the C code. -/
inductive fault where
  | null_deref
  | out_of_bounds
  | short_read
  | uninitialized
deriving DecidableEq

/-! ## nearest_neighbor -/

/-- Loop variables of `nearest_neighbor`. -/
structure nn_state where
  min_index : Int
  min_dist : precision_t
deriving DecidableEq

/-- Body of the `if` in the loop of `nearest_neighbor`:
`if ( min_dist == -1 || dist < min_dist ) { min_index = j; min_dist = dist; }`. -/
def nn_update (s : nn_state) (j : Int) (dist : precision_t) : nn_state :=
  if s.min_dist = -1 ∨ dist < s.min_dist then ⟨j, dist⟩ else s

/-- The loop of `nearest_neighbor` run over the columns `0 .. n-1`, from
`min_index = -1`, `min_dist = -1`. -/
def nn_scan (P P_test : matrix_t) (i : Int) (dist_func : dist_func_t) (n : Nat) : nn_state :=
  (List.range n).foldl
    (fun (s : nn_state) (j : Nat) => nn_update s (j : Int) (dist_func P_test i P (j : Int)))
    ⟨-1, -1⟩

/-- Embedding of `nearest_neighbor(P, P_test, i, dist_func)`. -/
def nearest_neighbor (P P_test : matrix_t) (i : Int) (dist_func : dist_func_t) : Int :=
  (nn_scan P P_test i dist_func P.cols.toNat).min_index

/-- What the scan of `nearest_neighbor` has established after the columns
`0 .. n-1`, `n ≥ 1`, when no distance among them is negative. -/
structure nn_inv (P P_test : matrix_t) (i : Int) (d : dist_func_t) (n : Nat) (s : nn_state) :
    Prop where
  lo : 0 ≤ s.min_index
  hi : s.min_index < n
  val : s.min_dist = d P_test i P s.min_index
  least : ∀ k : Nat, k < n → s.min_dist ≤ d P_test i P (k : Int)
  first : ∀ k : Nat, (k : Int) < s.min_index → s.min_dist < d P_test i P (k : Int)

/-! ## Labels, entries, algorithm slots, database -/

/-- A class label (`image_label_t`): `int id; char *name;`. -/
structure image_label_t where
  id : Int
  name : List char_t
deriving DecidableEq

/-- A dataset item (`image_entry_t`): `image_label_t *label; char *name;`.
`label` is the index of the label in the label array the entry belongs to. -/
structure image_entry_t where
  label : Int
  name : List char_t
deriving DecidableEq

/-- Hyperparameters (`db_params_t`). -/
structure db_params_t where
  pca_n1 : Int
  lda_n1 : Int
  lda_n2 : Int
  ica_max_iterations : Int
  ica_epsilon : precision_t
deriving DecidableEq

/-- One algorithm slot (`db_algorithm_t`), fields in the order of the
initialisers in `db_construct`: train flag, rec flag, name, `W`, `P`,
distance function. The field `rec` is called `rec_` here. -/
structure db_algorithm_t where
  train : Bool
  rec_ : Bool
  name : String
  W : Option matrix_t
  P : Option matrix_t
  dist_func : dist_func_t

/-- The database (`database_t`). -/
structure database_t where
  params : db_params_t
  num_entries : Int
  entries : List image_entry_t
  num_labels : Int
  labels : List image_label_t
  mean_face : Option matrix_t
  pca : db_algorithm_t
  lda : db_algorithm_t
  ica : db_algorithm_t

/-- A decoded image (`image_t`). -/
structure image_t where
  channels : Int
  height : Int
  width : Int
  pixels : List precision_t

/-- The four results of `get_directory(path, &entries, &num_labels, &labels)`. -/
structure directory_t where
  num_entries : Int
  entries : List image_entry_t
  num_labels : Int
  labels : List image_label_t

/-- Functions that `database.cpp` calls and that are defined elsewhere:
dataset enumeration, image decoding, the matrix library and the three
trainers. `LDA` receives the label array next to the entries that point
into it. -/
structure collaborators where
  get_directory : String → directory_t
  image_construct : image_t
  image_read : image_t → List char_t → image_t
  m_initialize : Int → Int → matrix_t
  m_image_read : matrix_t → Int → image_t → matrix_t
  m_mean_column : matrix_t → matrix_t
  m_subtract_columns : matrix_t → matrix_t → matrix_t
  m_product : matrix_t → matrix_t → Bool → Bool → matrix_t
  PCA_cols : matrix_t → Int → matrix_t × matrix_t
  LDA : Option matrix_t → matrix_t → Int → List image_entry_t → List image_label_t →
    Int → Int → matrix_t
  ICA : matrix_t → Int → precision_t → matrix_t
  m_dist_L2 : dist_func_t
  m_dist_COS : dist_func_t

/-! ## Memory access -/

/-- Read of `xs[i]`. -/
def elem_at {α : Type} (xs : List α) (i : Int) : Except fault α :=
  if i < 0 then .error .out_of_bounds
  else match xs[i.toNat]? with
    | some x => .ok x
    | none => .error .out_of_bounds

/-- Dereference of a pointer that may be `NULL`. -/
def deref {α : Type} : Option α → Except fault α
  | some x => .ok x
  | none => .error .null_deref

/-- C `strlen`: the number of chars before the first `0`. -/
def strlen : List char_t → Except fault Nat
  | [] => .error .out_of_bounds
  | c :: cs => if c = 0 then .ok 0 else (strlen cs).map (· + 1)

/-- C `strcmp`: `0` when the two strings agree up to and including their
terminator, else the difference of the first chars that differ. -/
def strcmp : List char_t → List char_t → Except fault Int
  | [], _ => .error .out_of_bounds
  | _ :: _, [] => .error .out_of_bounds
  | a :: as, b :: bs =>
    if a ≠ b then .ok ((a : Int) - (b : Int))
    else if a = 0 then .ok 0
    else strcmp as bs

/-- The fault a computation ends in, if it does. -/
def fault_of {α : Type} : Except fault α → Option fault
  | .error e => some e
  | .ok _ => none

/-! ## db_construct -/

/-- Embedding of `db_construct(pca, lda, ica, params)`; `calloc` zeroes the
counts and the pointers. A flag is set when its `int` initialiser is
non-zero. -/
def db_construct (c : collaborators) (pca lda ica : Int) (params : db_params_t) : database_t :=
  { params := params
    num_entries := 0
    entries := []
    num_labels := 0
    labels := []
    mean_face := none
    pca := ⟨decide (pca ≠ 0 ∨ lda ≠ 0 ∨ ica ≠ 0), decide (pca ≠ 0), "PCA", none, none, c.m_dist_L2⟩
    lda := ⟨decide (lda ≠ 0), decide (lda ≠ 0), "LDA", none, none, c.m_dist_L2⟩
    ica := ⟨decide (ica ≠ 0), decide (ica ≠ 0), "ICA", none, none, c.m_dist_COS⟩ }

/-! ## Files -/

/-- One value in a file. -/
inductive cell where
  | int (v : Int)
  | chr (c : char_t)
  | val (x : precision_t)
deriving DecidableEq

/-- The content of a file. -/
abbrev file_t := List cell

/-- `fwrite(&v, sizeof(int), 1, file)`. -/
def fwrite_int (file : file_t) (v : Int) : file_t :=
  file ++ [cell.int v]

/-- `fwrite(buf, sizeof(char), num, file)`. -/
def fwrite_chars (file : file_t) (buf : List char_t) (num : Nat) : Except fault file_t :=
  if num ≤ buf.length then .ok (file ++ (buf.take num).map cell.chr)
  else .error .out_of_bounds

/-- `fread(&v, sizeof(int), 1, file)`: the value and the rest of the file. -/
def fread_int : file_t → Except fault (Int × file_t)
  | cell.int v :: rest => .ok (v, rest)
  | _ => .error .short_read

/-- `fread(buf, sizeof(char), num, file)` into a fresh buffer of `num` chars. -/
def fread_chars : Nat → file_t → Except fault (List char_t × file_t)
  | 0, file => .ok ([], file)
  | n + 1, cell.chr c :: rest =>
    match fread_chars n rest with
    | .ok (cs, file) => .ok (c :: cs, file)
    | .error e => .error e
  | _ + 1, _ => .error .short_read

/-- Read of `num` matrix elements. -/
def fread_vals : Nat → file_t → Except fault (List precision_t × file_t)
  | 0, file => .ok ([], file)
  | n + 1, cell.val x :: rest =>
    match fread_vals n rest with
    | .ok (xs, file) => .ok (x :: xs, file)
    | .error e => .error e
  | _ + 1, _ => .error .short_read

/-- Modelled from the spec: `m_fwrite`, defined in the matrix library, writes
a matrix as the generic-matrix record `rows`, `cols`, then `rows*cols`
elements. -/
def m_fwrite (file : file_t) (M : Option matrix_t) : Except fault file_t :=
  match M with
  | none => .error .null_deref
  | some M =>
    if (M.rows * M.cols).toNat ≤ M.data.length then
      .ok (file ++ [cell.int M.rows, cell.int M.cols]
        ++ (M.data.take (M.rows * M.cols).toNat).map cell.val)
    else .error .out_of_bounds

/-- Modelled from the spec: `m_fread`, defined in the matrix library, reads a
generic-matrix record: `rows`, `cols`, then `rows*cols` elements. -/
def m_fread (file : file_t) : Except fault (matrix_t × file_t) :=
  match fread_int file with
  | .error e => .error e
  | .ok (rows, file) =>
    match fread_int file with
    | .error e => .error e
    | .ok (cols, file) =>
      match fread_vals (rows * cols).toNat file with
      | .error e => .error e
      | .ok (data, file) => .ok (⟨rows, cols, data⟩, file)

/-! ## db_save -/

/-- Body of the first loop of `db_save`: label `i` is written as its id, the
length of its name with the terminator, and the name. -/
def save_label (db : database_t) (file : file_t) (i : Nat) : Except fault file_t := do
  let l ← elem_at db.labels i
  let file := fwrite_int file l.id
  let len ← strlen l.name
  let num : Int := (len : Int) + 1
  let file := fwrite_int file num
  fwrite_chars file l.name num.toNat

/-- Body of the second loop of `db_save`: entry `i` is written as
`entries[i].label->id`, the length of its name with the terminator, and the
name. -/
def save_entry (db : database_t) (file : file_t) (i : Nat) : Except fault file_t := do
  let e ← elem_at db.entries i
  let l ← elem_at db.labels e.label
  let file := fwrite_int file l.id
  let len ← strlen e.name
  let num : Int := (len : Int) + 1
  let file := fwrite_int file num
  fwrite_chars file e.name num.toNat

/-- Body of the third loop of `db_save`: `W` and `P` of a slot whose train
flag is set. -/
def save_algorithm (file : file_t) (algo : db_algorithm_t) : Except fault file_t :=
  if algo.train then do
    let file ← m_fwrite file algo.W
    m_fwrite file algo.P
  else .ok file

/-- Embedding of `db_save(db, path)`: the content of the file written. -/
def db_save (db : database_t) : Except fault file_t := do
  let file := fwrite_int [] db.num_labels
  let file ← (List.range db.num_labels.toNat).foldlM (save_label db) file
  let file := fwrite_int file db.num_entries
  let file ← (List.range db.num_entries.toNat).foldlM (save_entry db) file
  let file ← m_fwrite file db.mean_face
  [db.pca, db.lda, db.ica].foldlM save_algorithm file

/-! ## db_load -/

/-- A name of `num` chars read into `malloc(num * sizeof(char))`. -/
def load_name (num : Int) (file : file_t) : Except fault (List char_t × file_t) :=
  if num < 0 then .error .null_deref else fread_chars num.toNat file

/-- Body of the first loop of `db_load`. -/
def load_label (file : file_t) : Except fault (image_label_t × file_t) := do
  let (id, file) ← fread_int file
  let (num, file) ← fread_int file
  let (name, file) ← load_name num file
  pure (⟨id, name⟩, file)

/-- The first loop of `db_load`, filling `labels[0 .. n-1]`. -/
def load_labels : Nat → file_t → Except fault (List image_label_t × file_t)
  | 0, file => .ok ([], file)
  | n + 1, file => do
    let (l, file) ← load_label file
    let (ls, file) ← load_labels n file
    pure (l :: ls, file)

/-- Body of the second loop of `db_load`:
`db->entries[i].label = &db->labels[label_id];` with the id as it was read. -/
def load_entry (file : file_t) : Except fault (image_entry_t × file_t) := do
  let (label_id, file) ← fread_int file
  let (num, file) ← fread_int file
  let (name, file) ← load_name num file
  pure (⟨label_id, name⟩, file)

/-- The second loop of `db_load`, filling `entries[0 .. n-1]`. -/
def load_entries : Nat → file_t → Except fault (List image_entry_t × file_t)
  | 0, file => .ok ([], file)
  | n + 1, file => do
    let (e, file) ← load_entry file
    let (es, file) ← load_entries n file
    pure (e :: es, file)

/-- Body of the third loop of `db_load`. -/
def load_algorithm (algo : db_algorithm_t) (file : file_t) :
    Except fault (db_algorithm_t × file_t) :=
  if algo.train then do
    let (W, file) ← m_fread file
    let (P, file) ← m_fread file
    pure ({ algo with W := some W, P := some P }, file)
  else .ok (algo, file)

/-- Embedding of `db_load(db, path)`, `file` being the content of the file
at `path`. -/
def db_load (db : database_t) (file : file_t) : Except fault database_t := do
  let (num_labels, file) ← fread_int file
  let (labels, file) ← load_labels num_labels.toNat file
  let (num_entries, file) ← fread_int file
  let (entries, file) ← load_entries num_entries.toNat file
  let (mean_face, file) ← m_fread file
  let (pca, file) ← load_algorithm db.pca file
  let (lda, file) ← load_algorithm db.lda file
  let (ica, _) ← load_algorithm db.ica file
  pure { db with
    num_labels := num_labels
    labels := labels
    num_entries := num_entries
    entries := entries
    mean_face := some mean_face
    pca := pca
    lda := lda
    ica := ica }

/-! ## db_train -/

/-- Embedding of `get_image_matrix(entries, num_entries)`. -/
def get_image_matrix (c : collaborators) (entries : List image_entry_t) (num_entries : Int) :
    Except fault matrix_t := do
  let image := c.image_construct
  let e ← elem_at entries 0
  let image := c.image_read image e.name
  let T := c.m_initialize (image.channels * image.height * image.width) num_entries
  let T := c.m_image_read T 0 image
  let (_, T) ← (List.range' 1 (num_entries.toNat - 1)).foldlM
    (fun (s : image_t × matrix_t) (i : Nat) => do
      let e ← elem_at entries i
      let image := c.image_read s.1 e.name
      pure (image, c.m_image_read s.2 i image))
    (image, T)
  pure T

/-- Embedding of `db_train(db, path)`. `D` is assigned only when PCA is
trained and is freed at the end in every case. -/
def db_train (c : collaborators) (db : database_t) (path : String) : Except fault database_t := do
  let dir := c.get_directory path
  let db := { db with
    num_entries := dir.num_entries
    entries := dir.entries
    num_labels := dir.num_labels
    labels := dir.labels }
  let X ← get_image_matrix c db.entries db.num_entries
  let mean_face := c.m_mean_column X
  let db := { db with mean_face := some mean_face }
  let X := c.m_subtract_columns X mean_face
  let D : Option matrix_t := if db.pca.train then some (c.PCA_cols X db.params.pca_n1).2 else none
  let db :=
    if db.pca.train then
      let W := (c.PCA_cols X db.params.pca_n1).1
      { db with pca := { db.pca with W := some W, P := some (c.m_product W X true false) } }
    else db
  let db :=
    if db.lda.train then
      let W := c.LDA db.pca.W X db.num_labels db.entries db.labels db.params.lda_n1 db.params.lda_n2
      { db with lda := { db.lda with W := some W, P := some (c.m_product W X true false) } }
    else db
  let db :=
    if db.ica.train then
      let W := c.ICA X db.params.ica_max_iterations db.params.ica_epsilon
      { db with ica := { db.ica with W := some W, P := some (c.m_product W X true false) } }
    else db
  match D with
  | some _ => pure db
  | none => .error .uninitialized

/-! ## float arithmetic -/

/-- The integer nearest to `x`, the even one when two are equally near. -/
def round_half_even (x : ℚ) : Int :=
  if x - (⌊x⌋ : ℚ) < 1 / 2 then ⌊x⌋
  else if 1 / 2 < x - (⌊x⌋ : ℚ) then ⌊x⌋ + 1
  else if ⌊x⌋ % 2 = 0 then ⌊x⌋
  else ⌊x⌋ + 1

/-- The number of binary digits of `n`, counted in at most `fuel` steps. -/
def bit_length : Nat → Nat → Nat
  | 0, _ => 0
  | fuel + 1, n => if n = 0 then 0 else bit_length fuel (n / 2) + 1

/-- The exponent of `x ≠ 0`: the integer `e` with `2^e ≤ |x| < 2^(e+1)`. It
is the difference of the bit lengths of the numerator and the denominator,
or one less. -/
def log2_floor (x : ℚ) : Int :=
  if (2 : ℚ) ^ ((bit_length x.num.natAbs x.num.natAbs : Int) - (bit_length x.den x.den : Int))
      ≤ |x| then
    (bit_length x.num.natAbs x.num.natAbs : Int) - (bit_length x.den x.den : Int)
  else (bit_length x.num.natAbs x.num.natAbs : Int) - (bit_length x.den x.den : Int) - 1

/-- The `float` (IEEE binary32) nearest to `x`: `x` is scaled to a
significand in `[2^23, 2^24)`, which is rounded to the nearest integer, ties
to even. The exponent is not limited: the values rounded in `db_recognize`
come from two 32-bit `int`s and lie within the normal range of `float`. -/
def round_f32 (x : ℚ) : ℚ :=
  if x = 0 then 0
  else (round_half_even (x / 2 ^ (log2_floor x - 23)) : ℚ) * 2 ^ (log2_floor x - 23)

/-- Conversion of an `int` to `float`. -/
def f32_of_int (v : Int) : ℚ :=
  round_f32 (v : ℚ)

/-- Product of two `float`s. -/
def f32_mul (a b : ℚ) : ℚ :=
  round_f32 (a * b)

/-- Quotient of two `float`s; `none` when the divisor is `0`, where the
result is a NaN or an infinity. -/
def f32_div (a b : ℚ) : Option ℚ :=
  if b = 0 then none else some (round_f32 (a / b))

/-- What `db_recognize` prints for one algorithm: its name, the label given
to each test image (as an index in `db->labels`), `num_correct`,
`num_entries` and the `float` `accuracy`, which is `none` when it is not a
number. -/
structure report_t where
  name : String
  rec_labels : List Int
  num_correct : Int
  num_entries : Int
  accuracy : Option ℚ
deriving DecidableEq

/-- The loop computing `rec_labels[j]` for `j = 0 .. num_entries-1`. -/
def rec_labels_loop (db : database_t) (algo : db_algorithm_t) (P_test : matrix_t)
    (num_entries : Int) : Except fault (List Int) :=
  (List.range num_entries.toNat).mapM (fun (j : Nat) => do
    let P ← deref algo.P
    let rec_index := nearest_neighbor P P_test (j : Int) algo.dist_func
    let e ← elem_at db.entries rec_index
    pure e.label)

/-- Body of the loop computing `num_correct`. -/
def count_correct (db : database_t) (dir : directory_t) (rec_labels : List Int)
    (num_correct : Int) (j : Nat) : Except fault Int := do
  let r ← elem_at rec_labels j
  let rl ← elem_at db.labels r
  let e ← elem_at dir.entries j
  let l ← elem_at dir.labels e.label
  let cmp ← strcmp rl.name l.name
  pure (if cmp = 0 then num_correct + 1 else num_correct)

/-- Body of `if ( algo->rec )` in `db_recognize`. The accuracy is
`100.0f * num_correct / num_entries`: both counts are converted to `float`,
the product is taken first, then the quotient. -/
def recognize_algorithm (c : collaborators) (db : database_t) (dir : directory_t)
    (X_test : matrix_t) (algo : db_algorithm_t) : Except fault report_t := do
  let W ← deref algo.W
  let P_test := c.m_product W X_test true false
  let rec_labels ← rec_labels_loop db algo P_test dir.num_entries
  let num_correct ← (List.range dir.num_entries.toNat).foldlM
    (count_correct db dir rec_labels) 0
  let accuracy := f32_div (f32_mul 100 (f32_of_int num_correct)) (f32_of_int dir.num_entries)
  pure ⟨algo.name, rec_labels, num_correct, dir.num_entries, accuracy⟩

/-- Embedding of `db_recognize(db, path)`: the database, which it only
reads, and one report per algorithm whose rec flag is set. -/
def db_recognize (c : collaborators) (db : database_t) (path : String) :
    Except fault (database_t × List report_t) := do
  let dir := c.get_directory path
  let X_test ← get_image_matrix c dir.entries dir.num_entries
  let mean_face ← deref db.mean_face
  let X_test := c.m_subtract_columns X_test mean_face
  let out ← [db.pca, db.lda, db.ica].foldlM
    (fun (out : List report_t) (algo : db_algorithm_t) =>
      if algo.rec_ then do
        let r ← recognize_algorithm c db dir X_test algo
        pure (out ++ [r])
      else pure out)
    []
  pure (db, out)

/-- The databases the program can hold: a constructed one, then any sequence
of `db_train`, `db_load` and `db_recognize` that return. -/
inductive reachable (c : collaborators) : database_t → Prop where
  | construct (pca lda ica : Int) (params : db_params_t) :
    reachable c (db_construct c pca lda ica params)
  | train (db db2 : database_t) (path : String) :
    reachable c db → db_train c db path = .ok db2 → reachable c db2
  | load (db db2 : database_t) (file : file_t) :
    reachable c db → db_load db file = .ok db2 → reachable c db2
  | recognize (db db2 : database_t) (path : String) (out : List report_t) :
    reachable c db → db_recognize c db path = .ok (db2, out) → reachable c db2

/-! ## The persisted record -/

/-- A buffer that holds exactly one C string: chars other than `0`, then `0`. -/
def c_string (s : List char_t) : Prop :=
  ∃ t : List char_t, s = t ++ [0] ∧ 0 ∉ t

/-- The buffer of a matrix holds `rows * cols` elements. -/
def matrix_ok (M : matrix_t) : Prop :=
  M.data.length = (M.rows * M.cols).toNat

/-- A database record as the spec lays it out: the labels, the entries, each
with the id of its label, the mean face, and `W` and `P` of each algorithm
that was trained. -/
structure record_t where
  labels : List image_label_t
  entries : List image_entry_t
  mean_face : matrix_t
  pca : Option (matrix_t × matrix_t)
  lda : Option (matrix_t × matrix_t)
  ica : Option (matrix_t × matrix_t)

/-- Record of a label: `labelId`, `nameLength`, `nameBytes`. -/
def encode_label (l : image_label_t) : file_t :=
  [cell.int l.id, cell.int l.name.length] ++ l.name.map cell.chr

/-- Record of an entry: `labelId`, `nameLength`, `nameBytes`. -/
def encode_entry (e : image_entry_t) : file_t :=
  [cell.int e.label, cell.int e.name.length] ++ e.name.map cell.chr

/-- Record of a matrix: `rows`, `cols`, `data`. -/
def encode_matrix (M : matrix_t) : file_t :=
  [cell.int M.rows, cell.int M.cols] ++ M.data.map cell.val

/-- Record of an algorithm: `W` and `P` if it was trained, else nothing. -/
def encode_algorithm : Option (matrix_t × matrix_t) → file_t
  | some (W, P) => encode_matrix W ++ encode_matrix P
  | none => []

/-- The persisted database record of the spec, section 6. -/
def encode_record (r : record_t) : file_t :=
  [cell.int r.labels.length] ++ r.labels.flatMap encode_label
    ++ ([cell.int r.entries.length] ++ r.entries.flatMap encode_entry
    ++ (encode_matrix r.mean_face
    ++ (encode_algorithm r.pca ++ (encode_algorithm r.lda ++ encode_algorithm r.ica))))

/-- The matrices of a record hold as many elements as their sizes say. -/
def record_ok (r : record_t) : Prop :=
  matrix_ok r.mean_face ∧
  ∀ a ∈ [r.pca, r.lda, r.ica], ∀ W P : matrix_t, a = some (W, P) → matrix_ok W ∧ matrix_ok P

/-- A slot after its part of a record has been loaded. -/
def loaded_algorithm (algo : db_algorithm_t) : Option (matrix_t × matrix_t) → db_algorithm_t
  | some (W, P) => { algo with W := some W, P := some P }
  | none => algo

/-- A database that `db_save` can write: the counts are the lengths of the
arrays, every name is a C string, every entry points to a label of the
database, the mean face is present, and so are `W` and `P` of every trained
slot. -/
structure saveable (db : database_t) : Prop where
  num_labels : db.num_labels = db.labels.length
  num_entries : db.num_entries = db.entries.length
  label_names : ∀ l ∈ db.labels, c_string l.name
  entry_names : ∀ e ∈ db.entries, c_string e.name
  entry_labels : ∀ e ∈ db.entries, 0 ≤ e.label ∧ e.label < db.labels.length
  mean_face : ∃ m, db.mean_face = some m ∧ matrix_ok m
  trained : ∀ a ∈ [db.pca, db.lda, db.ica], a.train = true →
    ∃ W P, a.W = some W ∧ a.P = some P ∧ matrix_ok W ∧ matrix_ok P

/-- The matrices `db_save` writes for a slot. -/
def saved_algorithm (algo : db_algorithm_t) : Option (matrix_t × matrix_t) :=
  if algo.train then
    match algo.W, algo.P with
    | some W, some P => some (W, P)
    | _, _ => none
  else none

/-- The id of the label an entry of the database points to. -/
def label_id (db : database_t) (e : image_entry_t) : Int :=
  (db.labels.getD e.label.toNat ⟨0, []⟩).id

/-- The record `db_save` writes for a database. -/
def record_of (db : database_t) : record_t :=
  { labels := db.labels
    entries := db.entries.map (fun e => ⟨label_id db e, e.name⟩)
    mean_face := db.mean_face.getD ⟨0, 0, []⟩
    pca := saved_algorithm db.pca
    lda := saved_algorithm db.lda
    ica := saved_algorithm db.ica }

/-! ## What db_recognize is expected to report -/

/-- The C string held in a buffer: the chars before the first `0`. -/
def c_str (s : List char_t) : List char_t :=
  s.takeWhile (fun ch => ch ≠ 0)

/-- The name of the label at index `i` of a label array. -/
def label_name (labels : List image_label_t) (i : Int) : List char_t :=
  c_str (labels.getD i.toNat ⟨0, []⟩).name

/-- The label given to test image `j`: the label of the training entry at
index `nearest_neighbor(P, P_test, j, dist_func)`. -/
def rec_label (db : database_t) (P P_test : matrix_t) (dist_func : dist_func_t) (j : Nat) : Int :=
  (db.entries.getD (nearest_neighbor P P_test (j : Int) dist_func).toNat ⟨0, []⟩).label

/-- The number of test entries whose given label has the same name as their
own label. -/
def num_matches (db : database_t) (dir : directory_t) (P P_test : matrix_t)
    (dist_func : dist_func_t) : Nat :=
  (List.range dir.entries.length).countP (fun j =>
    label_name db.labels (rec_label db P P_test dist_func j)
      = label_name dir.labels (dir.entries.getD j ⟨0, []⟩).label)

/-- The projected test matrix of a slot: `m_product(algo->W, X_test, true,
false)` with `X_test` the image matrix `X` less the mean face. -/
def projected_test (c : collaborators) (db : database_t) (X : matrix_t) (algo : db_algorithm_t) :
    matrix_t :=
  c.m_product (algo.W.getD ⟨0, 0, []⟩)
    (c.m_subtract_columns X (db.mean_face.getD ⟨0, 0, []⟩)) true false

/-- The number of matches of a slot on a test set of image matrix `X`. -/
def slot_matches (c : collaborators) (db : database_t) (dir : directory_t) (X : matrix_t)
    (algo : db_algorithm_t) : Nat :=
  num_matches db dir (algo.P.getD ⟨0, 0, []⟩) (projected_test c db X algo) algo.dist_func

/-- A database and a test set on which `db_recognize` is defined: the test
set is not empty, the mean face is present, every entry points to a label of
its own label array, every label name is terminated, and every slot whose
rec flag is set has `W` and a `P` of at least one column and no more columns
than the database has entries. -/
structure recognizable (db : database_t) (dir : directory_t) : Prop where
  num_entries : dir.num_entries = dir.entries.length
  nonempty : 1 ≤ dir.entries.length
  mean_face : ∃ m, db.mean_face = some m
  db_labels : ∀ e ∈ db.entries, 0 ≤ e.label ∧ e.label < db.labels.length
  dir_labels : ∀ e ∈ dir.entries, 0 ≤ e.label ∧ e.label < dir.labels.length
  db_names : ∀ l ∈ db.labels, 0 ∈ l.name
  dir_names : ∀ l ∈ dir.labels, 0 ∈ l.name
  slots : ∀ a ∈ [db.pca, db.lda, db.ica], a.rec_ = true →
    ∃ W P, a.W = some W ∧ a.P = some P ∧ 1 ≤ P.cols ∧ P.cols ≤ db.entries.length

/-- The report expected of a slot on a test set of image matrix `X`: the
label of the nearest training entry for each test image, the number of
matches `c`, the number of test entries `n`, and `100 * c / n` computed in
`float`. -/
def expected_report (c : collaborators) (db : database_t) (dir : directory_t) (X : matrix_t)
    (algo : db_algorithm_t) : report_t :=
  { name := algo.name
    rec_labels := (List.range dir.entries.length).map
      (rec_label db (algo.P.getD ⟨0, 0, []⟩) (projected_test c db X algo) algo.dist_func)
    num_correct := (slot_matches c db dir X algo : Nat)
    num_entries := dir.num_entries
    accuracy := f32_div (f32_mul 100 (f32_of_int (slot_matches c db dir X algo : Nat)))
      (f32_of_int dir.num_entries) }

/-- `db_recognize` is run on the dataset `db_train` was run on: the directory
at `path` holds the entries and labels of the database, `X` is its image
matrix, and in every slot whose rec flag is set the projected test matrix is
the cached `P`, which has one column per entry. -/
structure same_dataset (c : collaborators) (db : database_t) (path : String) (X : matrix_t) :
    Prop where
  entries : (c.get_directory path).entries = db.entries
  labels : (c.get_directory path).labels = db.labels
  num_entries : (c.get_directory path).num_entries = db.entries.length
  nonempty : 1 ≤ db.entries.length
  image_matrix : (get_image_matrix c db.entries (db.entries.length : Int)).toOption = some X
  mean_face : ∃ m, db.mean_face = some m
  entry_labels : ∀ e ∈ db.entries, 0 ≤ e.label ∧ e.label < db.labels.length
  label_names : ∀ l ∈ db.labels, 0 ∈ l.name
  slots : ∀ a ∈ [db.pca, db.lda, db.ica], a.rec_ = true →
    ∃ W P, a.W = some W ∧ a.P = some P ∧ P.cols = db.entries.length ∧
      projected_test c db X a = P

/-- The train and rec flags of the three slots. -/
def flags (db : database_t) : List Bool :=
  [db.pca.train, db.pca.rec_, db.lda.train, db.lda.rec_, db.ica.train, db.ica.rec_]

/-- In a slot, the rec flag is set only if the train flag is. -/
def rec_implies_train (algo : db_algorithm_t) : Prop :=
  algo.rec_ = true → algo.train = true

/-! ## A sample matrix library and dataset

Concrete collaborators on which the functions above can be evaluated. -/

/-- Element `(i, j)` of a matrix whose buffer holds the columns one after
the other. -/
def elem (M : matrix_t) (i j : Nat) : precision_t :=
  M.data.getD (j * M.rows.toNat + i) 0

/-- The matrix of the given size with the given elements. -/
def m_of_fn (rows cols : Nat) (f : Nat → Nat → precision_t) : matrix_t :=
  ⟨rows, cols, (List.range cols).flatMap (fun j => (List.range rows).map (fun i => f i j))⟩

/-- Modelled from the spec: `m_dist_L2`, defined in the matrix library, the
Euclidean norm of the difference of column `i` of `A` and column `j` of `B`.
The square root is exact when the sum of squares is the square of a
rational. -/
def sample_dist_L2 : dist_func_t := fun A i B j =>
  Rat.sqrt (((List.range A.rows.toNat).map
    (fun k => (elem A k i.toNat - elem B k j.toNat) ^ 2)).sum)

/-- Modelled from the spec: `m_dist_COS`, defined in the matrix library, the
cosine-based distance: the cosine similarity `x·y / sqrt(|x|²·|y|²)` of
column `i` of `A` and column `j` of `B` with its sign changed, so that
smaller is more similar. -/
def sample_dist_COS : dist_func_t := fun A i B j =>
  - (((List.range A.rows.toNat).map (fun k => elem A k i.toNat * elem B k j.toNat)).sum
      / Rat.sqrt
        (((List.range A.rows.toNat).map (fun k => elem A k i.toNat ^ 2)).sum
          * ((List.range A.rows.toNat).map (fun k => elem B k j.toNat ^ 2)).sum))

/-- Modelled from the spec: `m_product(A, B, transA, transB)`, defined in the
matrix library, the product of `A` and `B`, each transposed first when its
flag is set. -/
def sample_product (A B : matrix_t) (transA transB : Bool) : matrix_t :=
  let ea : Nat → Nat → precision_t := fun i k => if transA then elem A k i else elem A i k
  let eb : Nat → Nat → precision_t := fun k j => if transB then elem B j k else elem B k j
  let rows := if transA then A.cols.toNat else A.rows.toNat
  let inner := if transA then A.rows.toNat else A.cols.toNat
  let cols := if transB then B.rows.toNat else B.cols.toNat
  m_of_fn rows cols (fun i j => ((List.range inner).map (fun k => ea i k * eb k j)).sum)

/-- Modelled from the spec: `m_mean_column`, defined in the matrix library,
the one-column matrix of the averages of the rows. -/
def sample_mean_column (M : matrix_t) : matrix_t :=
  m_of_fn M.rows.toNat 1
    (fun i _ => ((List.range M.cols.toNat).map (fun j => elem M i j)).sum / (M.cols : precision_t))

/-- Modelled from the spec: `m_subtract_columns`, defined in the matrix
library, subtracts a one-column matrix from every column. -/
def sample_subtract_columns (M a : matrix_t) : matrix_t :=
  m_of_fn M.rows.toNat M.cols.toNat (fun i j => elem M i j - elem a i 0)

/-- The sample dataset: three images in two classes, `a/0`, `b/0` and `b/3`. -/
def sample_dir : directory_t :=
  { num_entries := 3
    entries := [⟨0, [97, 47, 48, 0]⟩, ⟨1, [98, 47, 48, 0]⟩, ⟨1, [98, 47, 51, 0]⟩]
    num_labels := 2
    labels := [⟨0, [97, 0]⟩, ⟨1, [98, 0]⟩] }

/-- A second dataset: two images in two classes, `a/0` and `b/4`. -/
def plain_dir : directory_t :=
  { num_entries := 2
    entries := [⟨0, [97, 47, 48, 0]⟩, ⟨1, [98, 47, 52, 0]⟩]
    num_labels := 2
    labels := [⟨0, [97, 0]⟩, ⟨1, [98, 0]⟩] }

/-- The sample collaborators. The path `plain` holds `plain_dir` and every
other path holds `sample_dir`; an image has one pixel, whose value is the
third char of its file name, so that `a/0` and `b/0` are the same picture;
the trainers return the identity basis of that one-pixel space. -/
def sample_lib : collaborators :=
  { get_directory := fun path => if path = "plain" then plain_dir else sample_dir
    image_construct := ⟨0, 0, 0, []⟩
    image_read := fun _ name => ⟨1, 1, 1, [((name.getD 2 0 : Nat) : precision_t)]⟩
    m_initialize := fun rows cols => m_of_fn rows.toNat cols.toNat (fun _ _ => 0)
    m_image_read := fun T i image =>
      m_of_fn T.rows.toNat T.cols.toNat
        (fun k j => if (j : Int) = i then image.pixels.getD k 0 else elem T k j)
    m_mean_column := sample_mean_column
    m_subtract_columns := sample_subtract_columns
    m_product := sample_product
    PCA_cols := fun _ _ => (⟨1, 1, [1]⟩, ⟨1, 1, [1]⟩)
    LDA := fun _ _ _ _ _ _ _ => ⟨1, 1, [1]⟩
    ICA := fun _ _ _ => ⟨1, 1, [1]⟩
    m_dist_L2 := sample_dist_L2
    m_dist_COS := sample_dist_COS }

/-- Hyperparameters of the sample databases. -/
def sample_params : db_params_t := ⟨1, 1, 1, 10, 0⟩

/-- A distance function giving `-1` from the query to column `0` of the
reference matrix and `0` to every other column. -/
def dist_minus_one_then_zero : dist_func_t :=
  fun _ _ _ j => if j = 0 then -1 else 0

/-- The matrix of `test_m_distance`: the columns `(1, 0, 0)` and `(0, 1, 0)`. -/
def unit_columns : matrix_t := ⟨3, 2, [1, 0, 0, 0, 1, 0]⟩

/-- The sample database after `db_train` on the sample dataset with only PCA
requested: the mean face is `49`, the centred images are `-1`, `-1`, `2`. -/
def sample_db : database_t :=
  { params := sample_params
    num_entries := 3
    entries := sample_dir.entries
    num_labels := 2
    labels := sample_dir.labels
    mean_face := some ⟨1, 1, [49]⟩
    pca := ⟨true, true, "PCA", some ⟨1, 1, [1]⟩, some ⟨1, 3, [-1, -1, 2]⟩, sample_dist_L2⟩
    lda := ⟨false, false, "LDA", none, none, sample_dist_L2⟩
    ica := ⟨false, false, "ICA", none, none, sample_dist_COS⟩ }

/-- The file `db_save` writes for `sample_db`. -/
def sample_file : file_t :=
  [cell.int 2, cell.int 0, cell.int 2, cell.chr 97, cell.chr 0,
   cell.int 1, cell.int 2, cell.chr 98, cell.chr 0,
   cell.int 3, cell.int 0, cell.int 4, cell.chr 97, cell.chr 47, cell.chr 48, cell.chr 0,
   cell.int 1, cell.int 4, cell.chr 98, cell.chr 47, cell.chr 48, cell.chr 0,
   cell.int 1, cell.int 4, cell.chr 98, cell.chr 47, cell.chr 51, cell.chr 0,
   cell.int 1, cell.int 1, cell.val 49,
   cell.int 1, cell.int 1, cell.val 1,
   cell.int 1, cell.int 3, cell.val (-1), cell.val (-1), cell.val 2]

/-- The sample database with the ids of its two labels exchanged: label `a`
has id `1` and label `b` has id `0`. -/
def swapped_db : database_t :=
  { sample_db with labels := [⟨1, [97, 0]⟩, ⟨0, [98, 0]⟩] }

/-- The sample database with a cached `P` of zero columns in the PCA slot. -/
def no_columns_db : database_t :=
  { sample_db with
    pca := ⟨true, true, "PCA", some ⟨1, 1, [1]⟩, some ⟨1, 0, []⟩, sample_dist_L2⟩ }

/-- The label an entry points to in a label array, if there is one. -/
def label_of (labels : List image_label_t) (e : image_entry_t) : Option image_label_t :=
  (elem_at labels e.label).toOption

/-- A record with one label, of id `0`, and one entry, whose label id is `7`. -/
def corrupt_record : record_t :=
  { labels := [⟨0, [97, 0]⟩]
    entries := [⟨7, [120, 0]⟩]
    mean_face := ⟨1, 1, [0]⟩
    pca := none
    lda := none
    ica := none }

/-- The file holding `corrupt_record`. -/
def corrupt_file : file_t :=
  [cell.int 1, cell.int 0, cell.int 2, cell.chr 97, cell.chr 0,
   cell.int 1, cell.int 7, cell.int 2, cell.chr 120, cell.chr 0,
   cell.int 1, cell.int 1, cell.val 0]

/-! # Theorems -/

/-! ## float arithmetic: rounding error and exact cases -/

theorem round_half_even_near (x : ℚ) : |(round_half_even x : ℚ) - x| ≤ 1 / 2 := by
  have h1 := Int.floor_le x
  have h2 := Int.lt_floor_add_one x
  unfold round_half_even
  split_ifs with ha hb hc
  · rw [abs_le]; constructor <;> linarith
  · push_cast; rw [abs_le]; constructor <;> linarith
  · rw [abs_le]; constructor <;> linarith
  · push_cast; rw [abs_le]; constructor <;> linarith

theorem bit_length_spec : ∀ (fuel n : Nat), n ≤ fuel → 0 < n →
    2 ^ (bit_length fuel n - 1) ≤ n ∧ n < 2 ^ bit_length fuel n ∧ 1 ≤ bit_length fuel n := by
  intro fuel
  induction fuel with
  | zero => intro n h1 h2; omega
  | succ fuel ih =>
    intro n h1 h2
    unfold bit_length
    rw [if_neg (by omega)]
    by_cases h : n / 2 = 0
    · have hn : n = 1 := by omega
      subst hn
      cases fuel <;> simp [bit_length]
    · obtain ⟨i1, i2, i3⟩ := ih (n / 2) (by omega) (by omega)
      refine ⟨?_, ?_, by omega⟩
      · have : bit_length fuel (n / 2) + 1 - 1 = (bit_length fuel (n / 2) - 1) + 1 := by omega
        rw [this, pow_succ]
        omega
      · rw [pow_succ]
        omega


theorem log2_floor_spec (x : ℚ) (hx : x ≠ 0) :
    (2 : ℚ) ^ log2_floor x ≤ |x| ∧ |x| < (2 : ℚ) ^ (log2_floor x + 1) := by
  have hp : 0 < x.num.natAbs := Int.natAbs_pos.mpr (Rat.num_ne_zero.mpr hx)
  have hq : 0 < x.den := x.den_pos
  obtain ⟨a1, a2, a3⟩ := bit_length_spec _ _ (le_refl x.num.natAbs) hp
  obtain ⟨b1, b2, b3⟩ := bit_length_spec _ _ (le_refl x.den) hq
  set A := bit_length x.num.natAbs x.num.natAbs with hA
  set B := bit_length x.den x.den with hB
  have habs : |x| = (x.num.natAbs : ℚ) / (x.den : ℚ) := by
    conv_lhs => rw [← Rat.num_div_den x]
    rw [abs_div, Nat.cast_natAbs, Nat.abs_cast]
    simp
  have hq0 : (0 : ℚ) < (x.den : ℚ) := by exact_mod_cast hq
  have two_pos : ∀ z : Int, (0 : ℚ) < (2 : ℚ) ^ z := fun z => zpow_pos (by norm_num) z
  have a1q : (2 : ℚ) ^ ((A : Int) - 1) ≤ (x.num.natAbs : ℚ) := by
    have : ((2 ^ (A - 1) : Nat) : ℚ) ≤ (x.num.natAbs : ℚ) := by exact_mod_cast a1
    rw [Nat.cast_pow, ← zpow_natCast] at this
    have e : ((A - 1 : Nat) : Int) = (A : Int) - 1 := by omega
    rw [e] at this
    exact_mod_cast this
  have a2q : (x.num.natAbs : ℚ) < (2 : ℚ) ^ (A : Int) := by
    have : (x.num.natAbs : ℚ) < ((2 ^ A : Nat) : ℚ) := by exact_mod_cast a2
    rw [Nat.cast_pow, ← zpow_natCast] at this
    exact_mod_cast this
  have b1q : (2 : ℚ) ^ ((B : Int) - 1) ≤ (x.den : ℚ) := by
    have : ((2 ^ (B - 1) : Nat) : ℚ) ≤ (x.den : ℚ) := by exact_mod_cast b1
    rw [Nat.cast_pow, ← zpow_natCast] at this
    have e : ((B - 1 : Nat) : Int) = (B : Int) - 1 := by omega
    rw [e] at this
    exact_mod_cast this
  have b2q : (x.den : ℚ) < (2 : ℚ) ^ (B : Int) := by
    have : (x.den : ℚ) < ((2 ^ B : Nat) : ℚ) := by exact_mod_cast b2
    rw [Nat.cast_pow, ← zpow_natCast] at this
    exact_mod_cast this
  have hup : |x| < (2 : ℚ) ^ ((A : Int) - (B : Int) + 1) := by
    rw [habs, div_lt_iff₀ hq0]
    calc (x.num.natAbs : ℚ) < (2 : ℚ) ^ (A : Int) := a2q
      _ = (2 : ℚ) ^ ((A : Int) - (B : Int) + 1) * (2 : ℚ) ^ ((B : Int) - 1) := by
          rw [← zpow_add₀ (by norm_num : (2 : ℚ) ≠ 0)]
          congr 1
          ring
      _ ≤ (2 : ℚ) ^ ((A : Int) - (B : Int) + 1) * (x.den : ℚ) :=
          mul_le_mul_of_nonneg_left b1q (le_of_lt (two_pos _))
  have hlo : (2 : ℚ) ^ ((A : Int) - (B : Int) - 1) ≤ |x| := by
    rw [habs, le_div_iff₀ hq0]
    calc (2 : ℚ) ^ ((A : Int) - (B : Int) - 1) * (x.den : ℚ)
        ≤ (2 : ℚ) ^ ((A : Int) - (B : Int) - 1) * (2 : ℚ) ^ (B : Int) :=
          mul_le_mul_of_nonneg_left (le_of_lt b2q) (le_of_lt (two_pos _))
      _ = (2 : ℚ) ^ ((A : Int) - 1) := by
          rw [← zpow_add₀ (by norm_num : (2 : ℚ) ≠ 0)]
          congr 1
          ring
      _ ≤ (x.num.natAbs : ℚ) := a1q
  unfold log2_floor
  rw [← hA, ← hB]
  split_ifs with h
  · exact ⟨h, hup⟩
  · push_neg at h
    refine ⟨hlo, ?_⟩
    have : (A : Int) - (B : Int) - 1 + 1 = (A : Int) - (B : Int) := by ring
    rw [this]
    exact h


theorem round_f32_near (x : ℚ) (hx : 0 < x) : |round_f32 x - x| ≤ x / 2 ^ 24 := by
  obtain ⟨h1, _⟩ := log2_floor_spec x (ne_of_gt hx)
  rw [abs_of_pos hx] at h1
  have hs : (0 : ℚ) < (2 : ℚ) ^ (log2_floor x - 23) := zpow_pos (by norm_num) _
  have hr := round_half_even_near (x / 2 ^ (log2_floor x - 23))
  unfold round_f32
  rw [if_neg (ne_of_gt hx)]
  set s := (2 : ℚ) ^ (log2_floor x - 23) with hsdef
  have e1 : (round_half_even (x / s) : ℚ) * s - x = ((round_half_even (x / s) : ℚ) - x / s) * s := by
    field_simp
  rw [e1, abs_mul, abs_of_pos hs]
  have hs2 : s = (2 : ℚ) ^ log2_floor x / 2 ^ 23 := by
    rw [hsdef, zpow_sub₀ (by norm_num : (2 : ℚ) ≠ 0)]
    norm_num
  have hs3 : s ≤ x / 2 ^ 23 := by
    rw [hs2]
    exact div_le_div_of_nonneg_right h1 (by norm_num)
  calc |(round_half_even (x / s) : ℚ) - x / s| * s ≤ 1 / 2 * s :=
        mul_le_mul_of_nonneg_right hr (le_of_lt hs)
    _ ≤ 1 / 2 * (x / 2 ^ 23) := mul_le_mul_of_nonneg_left hs3 (by norm_num)
    _ = x / 2 ^ 24 := by ring

theorem round_f32_zero : round_f32 0 = 0 := by
  simp [round_f32]

theorem round_f32_bounds (x : ℚ) (hx : 0 ≤ x) :
    x * (1 - 1 / 2 ^ 24) ≤ round_f32 x ∧ round_f32 x ≤ x * (1 + 1 / 2 ^ 24) := by
  rcases eq_or_lt_of_le hx with h | h
  · rw [← h, round_f32_zero]; simp
  · have := round_f32_near x h
    rw [abs_le] at this
    constructor <;> linarith [this.1, this.2]

theorem round_f32_pos (x : ℚ) (hx : 0 < x) : 0 < round_f32 x := by
  have h := (round_f32_bounds x (le_of_lt hx)).1
  have : 0 < x * (1 - 1 / 2 ^ 24) := mul_pos hx (by norm_num)
  linarith

theorem accuracy_bounds (c n : Nat) (hn : 1 ≤ n) :
    0 ≤ round_f32 (round_f32 (100 * round_f32 (c : ℚ)) / round_f32 (n : ℚ)) ∧
    |round_f32 (round_f32 (100 * round_f32 (c : ℚ)) / round_f32 (n : ℚ))
        - 100 * (c : ℚ) / (n : ℚ)| ≤ 100 * (c : ℚ) / (n : ℚ) / 2 ^ 21 := by
  have hc0 : (0 : ℚ) ≤ (c : ℚ) := Nat.cast_nonneg c
  have hn0 : (0 : ℚ) < (n : ℚ) := by exact_mod_cast hn
  obtain ⟨a1, a2⟩ := round_f32_bounds (c : ℚ) hc0
  set a := round_f32 (c : ℚ) with ha
  have ha0 : 0 ≤ a := le_trans (mul_nonneg hc0 (by norm_num)) a1
  obtain ⟨b1, b2⟩ := round_f32_bounds (100 * a) (mul_nonneg (by norm_num) ha0)
  set b := round_f32 (100 * a) with hb
  have hb0 : 0 ≤ b := le_trans (mul_nonneg (mul_nonneg (by norm_num) ha0) (by norm_num)) b1
  obtain ⟨d1, d2⟩ := round_f32_bounds (n : ℚ) (le_of_lt hn0)
  have hd0 : 0 < round_f32 (n : ℚ) := round_f32_pos _ hn0
  set d := round_f32 (n : ℚ) with hd
  have hq0 : 0 ≤ b / d := div_nonneg hb0 (le_of_lt hd0)
  obtain ⟨x1, x2⟩ := round_f32_bounds (b / d) hq0
  set x := round_f32 (b / d) with hx
  have hx0 : 0 ≤ x := le_trans (mul_nonneg hq0 (by norm_num)) x1
  have hlo : (0 : ℚ) < (n : ℚ) * (1 - 1 / 2 ^ 24) := mul_pos hn0 (by norm_num)
  have hhi : (0 : ℚ) < (n : ℚ) * (1 + 1 / 2 ^ 24) := mul_pos hn0 (by norm_num)
  have bU : b ≤ 100 * (c : ℚ) * (1 + 1 / 2 ^ 24) ^ 2 := by
    calc b ≤ 100 * a * (1 + 1 / 2 ^ 24) := b2
      _ ≤ 100 * ((c : ℚ) * (1 + 1 / 2 ^ 24)) * (1 + 1 / 2 ^ 24) := by
          apply mul_le_mul_of_nonneg_right _ (by norm_num)
          exact mul_le_mul_of_nonneg_left a2 (by norm_num)
      _ = 100 * (c : ℚ) * (1 + 1 / 2 ^ 24) ^ 2 := by ring
  have bL : 100 * (c : ℚ) * (1 - 1 / 2 ^ 24) ^ 2 ≤ b := by
    calc 100 * (c : ℚ) * (1 - 1 / 2 ^ 24) ^ 2
        = 100 * ((c : ℚ) * (1 - 1 / 2 ^ 24)) * (1 - 1 / 2 ^ 24) := by ring
      _ ≤ 100 * a * (1 - 1 / 2 ^ 24) := by
          apply mul_le_mul_of_nonneg_right _ (by norm_num)
          exact mul_le_mul_of_nonneg_left a1 (by norm_num)
      _ ≤ b := b1
  have qU : b / d ≤ 100 * (c : ℚ) * (1 + 1 / 2 ^ 24) ^ 2 / ((n : ℚ) * (1 - 1 / 2 ^ 24)) :=
    div_le_div₀ (mul_nonneg (mul_nonneg (by norm_num) hc0) (by positivity)) bU hlo d1
  have qL : 100 * (c : ℚ) * (1 - 1 / 2 ^ 24) ^ 2 / ((n : ℚ) * (1 + 1 / 2 ^ 24)) ≤ b / d :=
    div_le_div₀ hb0 bL hd0 d2
  have xU : x ≤ 100 * (c : ℚ) / (n : ℚ) * (1 + 1 / 2 ^ 21) := by
    calc x ≤ b / d * (1 + 1 / 2 ^ 24) := x2
      _ ≤ 100 * (c : ℚ) * (1 + 1 / 2 ^ 24) ^ 2 / ((n : ℚ) * (1 - 1 / 2 ^ 24))
            * (1 + 1 / 2 ^ 24) := mul_le_mul_of_nonneg_right qU (by norm_num)
      _ = 100 * (c : ℚ) / (n : ℚ) * ((1 + 1 / 2 ^ 24) ^ 3 / (1 - 1 / 2 ^ 24)) := by
          field_simp
          ring
      _ ≤ 100 * (c : ℚ) / (n : ℚ) * (1 + 1 / 2 ^ 21) := by
          apply mul_le_mul_of_nonneg_left _ (by positivity)
          norm_num
  have xL : 100 * (c : ℚ) / (n : ℚ) * (1 - 1 / 2 ^ 21) ≤ x := by
    calc 100 * (c : ℚ) / (n : ℚ) * (1 - 1 / 2 ^ 21)
        ≤ 100 * (c : ℚ) / (n : ℚ) * ((1 - 1 / 2 ^ 24) ^ 3 / (1 + 1 / 2 ^ 24)) := by
          apply mul_le_mul_of_nonneg_left _ (by positivity)
          norm_num
      _ = 100 * (c : ℚ) * (1 - 1 / 2 ^ 24) ^ 2 / ((n : ℚ) * (1 + 1 / 2 ^ 24))
            * (1 - 1 / 2 ^ 24) := by
          field_simp
          ring
      _ ≤ b / d * (1 - 1 / 2 ^ 24) := mul_le_mul_of_nonneg_right qL (by norm_num)
      _ ≤ x := x1
  refine ⟨hx0, ?_⟩
  rw [abs_le]
  constructor <;> linarith

theorem accuracy_value (c n : Nat) (hn : 1 ≤ n) :
    f32_div (f32_mul 100 (f32_of_int (c : Int))) (f32_of_int (n : Int))
      = some (round_f32 (round_f32 (100 * round_f32 (c : ℚ)) / round_f32 (n : ℚ))) := by
  have hd : round_f32 (n : ℚ) ≠ 0 := ne_of_gt (round_f32_pos _ (by exact_mod_cast hn))
  simp only [f32_div, f32_mul, f32_of_int, Int.cast_natCast, hd, if_false]

theorem nn_scan_zero (P P_test : matrix_t) (i : Int) (d : dist_func_t) :
    nn_scan P P_test i d 0 = ⟨-1, -1⟩ := rfl

theorem nn_scan_succ (P P_test : matrix_t) (i : Int) (d : dist_func_t) (n : Nat) :
    nn_scan P P_test i d (n + 1)
      = nn_update (nn_scan P P_test i d n) (n : Int) (d P_test i P (n : Int)) := by
  simp [nn_scan, List.range_succ, List.foldl_append]

theorem nn_scan_one (P P_test : matrix_t) (i : Int) (d : dist_func_t) :
    nn_scan P P_test i d 1 = ⟨0, d P_test i P 0⟩ := by
  simp [nn_scan_succ, nn_scan_zero, nn_update]

theorem nn_scan_inv (P P_test : matrix_t) (i : Int) (d : dist_func_t) :
    ∀ n : Nat, (∀ k : Nat, k < n + 1 → 0 ≤ d P_test i P (k : Int)) →
      nn_inv P P_test i d (n + 1) (nn_scan P P_test i d (n + 1)) := by
  intro n
  induction n with
  | zero =>
    intro _
    rw [nn_scan_one]
    refine ⟨le_refl _, by simp, rfl, ?_, ?_⟩
    · intro k hk
      have : k = 0 := by omega
      subst this
      simp
    · intro k hk
      simp at hk
      omega
  | succ n ih0 =>
    intro hd
    have ih := ih0 (fun k hk => hd k (by omega))
    rw [nn_scan_succ]
    set s := nn_scan P P_test i d (n + 1) with hs
    have hne : s.min_dist ≠ -1 := by
      intro h
      have hlt : s.min_index.toNat < n + 1 + 1 := by
        have := ih.hi
        push_cast at this
        omega
      have := hd s.min_index.toNat hlt
      rw [Int.toNat_of_nonneg ih.lo, ← ih.val, h] at this
      norm_num at this
    unfold nn_update
    by_cases hlt : d P_test i P ((n + 1 : Nat) : Int) < s.min_dist
    · rw [if_pos (Or.inr hlt)]
      refine ⟨by simp; omega, by simp, rfl, ?_, ?_⟩
      · intro k hk
        by_cases hk2 : k < n + 1
        · exact le_of_lt (lt_of_lt_of_le hlt (ih.least k hk2))
        · have : k = n + 1 := by omega
          subst this
          exact le_refl _
      · intro k hk
        simp only at hk
        have hk2 : k < n + 1 := by omega
        exact lt_of_lt_of_le hlt (ih.least k hk2)
    · rw [if_neg (by rintro (h | h); exact hne h; exact hlt h)]
      refine ⟨ih.lo, ?_, ih.val, ?_, ih.first⟩
      · have := ih.hi
        push_cast at this ⊢
        omega
      · intro k hk
        by_cases hk2 : k < n + 1
        · exact ih.least k hk2
        · have : k = n + 1 := by omega
          subst this
          exact le_of_not_lt hlt

/-- With at least one column and no negative distance, the state reached by
`nearest_neighbor` satisfies `nn_inv` for all the columns of `P`. -/
theorem nearest_neighbor_inv (P P_test : matrix_t) (i : Int) (d : dist_func_t)
    (hcols : 0 < P.cols)
    (hdist : ∀ j : Int, 0 ≤ j → j < P.cols → 0 ≤ d P_test i P j) :
    nn_inv P P_test i d P.cols.toNat (nn_scan P P_test i d P.cols.toNat) := by
  obtain ⟨n, hn⟩ : ∃ n : Nat, P.cols.toNat = n + 1 := ⟨P.cols.toNat - 1, by omega⟩
  rw [hn]
  exact nn_scan_inv P P_test i d n (fun k hk => hdist k (by omega) (by omega))

/-! ## nearest_neighbor: the claims -/

/-- C10: if `P` has at least one column and no distance from query column `i`
to a column of `P` is negative, `nearest_neighbor` returns an index in
`[0, P.cols)` whose distance is minimal and strictly below the distance of
every lower index; and during the scan, once a column has been seen,
`min_dist` is never the sentinel `-1`, so that the recorded minimum changes
only when the new distance is strictly smaller. -/
theorem nearest_neighbor_nonneg (P P_test : matrix_t) (i : Int) (dist_func : dist_func_t)
    (hcols : 0 < P.cols)
    (hdist : ∀ j : Int, 0 ≤ j → j < P.cols → 0 ≤ dist_func P_test i P j) :
    0 ≤ nearest_neighbor P P_test i dist_func ∧
    nearest_neighbor P P_test i dist_func < P.cols ∧
    (∀ k : Int, 0 ≤ k → k < P.cols →
      dist_func P_test i P (nearest_neighbor P P_test i dist_func) ≤ dist_func P_test i P k) ∧
    (∀ k : Int, 0 ≤ k → k < nearest_neighbor P P_test i dist_func →
      dist_func P_test i P (nearest_neighbor P P_test i dist_func) < dist_func P_test i P k) ∧
    (∀ n : Nat, 1 ≤ n → (n : Int) < P.cols →
      (nn_scan P P_test i dist_func n).min_dist ≠ -1 ∧
      (nn_scan P P_test i dist_func (n + 1) ≠ nn_scan P P_test i dist_func n →
        dist_func P_test i P (n : Int) < (nn_scan P P_test i dist_func n).min_dist)) := by
  have h := nearest_neighbor_inv P P_test i dist_func hcols hdist
  have hc : ((P.cols.toNat : Nat) : Int) = P.cols := Int.toNat_of_nonneg (le_of_lt hcols)
  unfold nearest_neighbor
  refine ⟨h.lo, ?_, ?_, ?_, ?_⟩
  · have := h.hi
    rw [hc] at this
    exact this
  · intro k hk0 hk
    have := h.least k.toNat (by omega)
    rw [Int.toNat_of_nonneg hk0, h.val] at this
    exact this
  · intro k hk0 hk
    have := h.first k.toNat (by rw [Int.toNat_of_nonneg hk0]; exact hk)
    rw [Int.toNat_of_nonneg hk0, h.val] at this
    exact this
  · intro n hn1 hn
    obtain ⟨m, rfl⟩ : ∃ m : Nat, n = m + 1 := ⟨n - 1, by omega⟩
    have hm := nn_scan_inv P P_test i dist_func m
      (fun k hk => hdist k (by omega) (by push_cast at hn; omega))
    have hne : (nn_scan P P_test i dist_func (m + 1)).min_dist ≠ -1 := by
      intro h1
      have h2 := hdist (nn_scan P P_test i dist_func (m + 1)).min_index hm.lo
        (by have := hm.hi; omega)
      rw [← hm.val, h1] at h2
      norm_num at h2
    refine ⟨hne, ?_⟩
    intro hchg
    by_contra hlt
    apply hchg
    rw [nn_scan_succ (n := m + 1)]
    unfold nn_update
    rw [if_neg (by rintro (h1 | h1); exact hne h1; exact hlt h1)]

/-- Witness for C10: two columns at distances `3` and `2` from the query. -/
theorem nearest_neighbor_nonneg_witness :
    nearest_neighbor ⟨1, 2, [3, 2]⟩ ⟨1, 1, [0]⟩ 0
      (fun _ _ _ j => if j = 0 then 3 else 2) = 1 ∧
    (0 : Int) ≤ nearest_neighbor ⟨1, 2, [3, 2]⟩ ⟨1, 1, [0]⟩ 0
      (fun _ _ _ j => if j = 0 then 3 else 2) :=
  ⟨by decide,
   (nearest_neighbor_nonneg ⟨1, 2, [3, 2]⟩ ⟨1, 1, [0]⟩ 0
      (fun _ _ _ j => if j = 0 then 3 else 2) (by decide)
      (fun j _ _ => by show (0 : ℚ) ≤ if j = 0 then 3 else 2; split <;> norm_num)).1⟩

/-- C9: over a reference matrix of exactly one column, `nearest_neighbor`
returns index `0`, whatever the query and the distance function. -/
theorem nearest_neighbor_single_column (P P_test : matrix_t) (i : Int) (dist_func : dist_func_t)
    (hcols : P.cols = 1) :
    nearest_neighbor P P_test i dist_func = 0 := by
  unfold nearest_neighbor
  rw [hcols]
  show (nn_scan P P_test i dist_func 1).min_index = 0
  rw [nn_scan_one]

/-- Witness for C9: one column, at the sentinel distance `-1`. -/
theorem nearest_neighbor_single_column_witness :
    nearest_neighbor ⟨1, 1, [5]⟩ ⟨1, 1, [5]⟩ 0 (fun _ _ _ _ => -1) = 0 :=
  nearest_neighbor_single_column ⟨1, 1, [5]⟩ ⟨1, 1, [5]⟩ 0 (fun _ _ _ _ => -1) rfl

/-- C1, evaluated at two failing inputs. First, the distances from the query
to columns `0` and `1` are `-1` and `0`: column `0` is the strict minimum,
and `nearest_neighbor` returns `1`, because the distance `-1` of column `0`
is taken for the initial value of `min_dist`. Second, the same with the
negated cosine similarity on the columns `(1, 0, 0)` and `(0, 1, 0)`: the
query is column `0` itself, at distance `-1`, and the result is `1`. -/
theorem nearest_neighbor_sentinel_collision :
    nearest_neighbor ⟨1, 2, [1, 0]⟩ ⟨1, 1, [1]⟩ 0 dist_minus_one_then_zero = 1 ∧
    dist_minus_one_then_zero ⟨1, 1, [1]⟩ 0 ⟨1, 2, [1, 0]⟩ 0
      < dist_minus_one_then_zero ⟨1, 1, [1]⟩ 0 ⟨1, 2, [1, 0]⟩ 1 ∧
    nearest_neighbor unit_columns unit_columns 0 sample_dist_COS = 1 ∧
    sample_dist_COS unit_columns 0 unit_columns 0 = -1 ∧
    sample_dist_COS unit_columns 0 unit_columns 1 = 0 := by
  decide!

/-- C5, as the code behaves: a call of `nearest_neighbor` with a reference
matrix of zero columns returns `-1`, the initial value of `min_index`. -/
theorem nearest_neighbor_no_columns (P P_test : matrix_t) (i : Int) (dist_func : dist_func_t)
    (hcols : P.cols = 0) :
    nearest_neighbor P P_test i dist_func = -1 := by
  unfold nearest_neighbor
  rw [hcols]
  rfl

/-- Witness for C5 as amended. -/
theorem nearest_neighbor_no_columns_witness :
    nearest_neighbor ⟨2, 0, []⟩ ⟨2, 1, [1, 2]⟩ 0 (fun _ _ _ _ => 0) = -1 :=
  nearest_neighbor_no_columns ⟨2, 0, []⟩ ⟨2, 1, [1, 2]⟩ 0 (fun _ _ _ _ => 0) rfl

/-! ## db_construct and the flags -/

/-- C4: in the database built by `db_construct`, the PCA train flag is set
exactly when one of `pca`, `lda`, `ica` is non-zero, the LDA train flag
exactly when `lda` is, the ICA train flag exactly when `ica` is; so the PCA
train flag is set whenever the LDA or the ICA train flag is. -/
theorem db_construct_train_flags (c : collaborators) (pca lda ica : Int) (params : db_params_t) :
    ((db_construct c pca lda ica params).pca.train = true ↔ (pca ≠ 0 ∨ lda ≠ 0 ∨ ica ≠ 0)) ∧
    ((db_construct c pca lda ica params).lda.train = true ↔ lda ≠ 0) ∧
    ((db_construct c pca lda ica params).ica.train = true ↔ ica ≠ 0) ∧
    ((db_construct c pca lda ica params).lda.train = true ∨
        (db_construct c pca lda ica params).ica.train = true →
      (db_construct c pca lda ica params).pca.train = true) := by
  simp only [db_construct, decide_eq_true_eq, iff_self, true_and]
  rintro (h | h)
  · exact Or.inr (Or.inl h)
  · exact Or.inr (Or.inr h)

theorem db_construct_rec_implies_train (c : collaborators) (pca lda ica : Int)
    (params : db_params_t) :
    rec_implies_train (db_construct c pca lda ica params).pca ∧
    rec_implies_train (db_construct c pca lda ica params).lda ∧
    rec_implies_train (db_construct c pca lda ica params).ica := by
  simp only [rec_implies_train, db_construct, decide_eq_true_eq]
  exact ⟨fun h => Or.inl h, id, id⟩

theorem db_train_flags (c : collaborators) (db db2 : database_t) (path : String)
    (h : db_train c db path = .ok db2) : flags db2 = flags db := by
  unfold db_train at h
  simp only [bind, Except.bind, pure, Except.pure] at h
  split at h
  · cases h
  · split at h
    · cases h
      simp only [flags]
      split_ifs <;> rfl
    · cases h

theorem load_algorithm_flags (algo algo2 : db_algorithm_t) (file file2 : file_t)
    (h : load_algorithm algo file = .ok (algo2, file2)) :
    algo2.train = algo.train ∧ algo2.rec_ = algo.rec_ := by
  unfold load_algorithm at h
  split at h
  · simp only [bind, Except.bind, pure, Except.pure] at h
    repeat' split at h
    all_goals cases h
    exact ⟨rfl, rfl⟩
  · cases h
    exact ⟨rfl, rfl⟩

theorem db_load_flags (db db2 : database_t) (file : file_t)
    (h : db_load db file = .ok db2) : flags db2 = flags db := by
  unfold db_load at h
  simp only [bind, Except.bind, pure, Except.pure] at h
  repeat' split at h
  all_goals cases h
  rename_i h1 _ _ h2 _ _ h3
  have e1 := load_algorithm_flags _ _ _ _ h1
  have e2 := load_algorithm_flags _ _ _ _ h2
  have e3 := load_algorithm_flags _ _ _ _ h3
  simp only [flags, e1.1, e1.2, e2.1, e2.2, e3.1, e3.2]

theorem db_recognize_same (c : collaborators) (db db2 : database_t) (path : String)
    (out : List report_t) (h : db_recognize c db path = .ok (db2, out)) : db2 = db := by
  unfold db_recognize at h
  simp only [bind, Except.bind, pure, Except.pure] at h
  repeat' split at h
  all_goals cases h
  rfl

theorem rec_implies_train_of_flags (db db2 : database_t) (h : flags db2 = flags db)
    (hp : rec_implies_train db.pca ∧ rec_implies_train db.lda ∧ rec_implies_train db.ica) :
    rec_implies_train db2.pca ∧ rec_implies_train db2.lda ∧ rec_implies_train db2.ica := by
  simp only [flags, List.cons.injEq, and_true] at h
  obtain ⟨h1, h2, h3, h4, h5, h6⟩ := h
  simp only [rec_implies_train, h1, h2, h3, h4, h5, h6]
  exact hp

/-- C7: in every database the program can hold, built by `db_construct` and
then passed through any calls of `db_train`, `db_load` and `db_recognize`
that return, each of the three slots has its rec flag set only if its train
flag is set; and each of these three calls, when it returns, leaves the six
flags as they were. -/
theorem rec_flag_implies_train_flag (c : collaborators) (db : database_t)
    (h : reachable c db) :
    (rec_implies_train db.pca ∧ rec_implies_train db.lda ∧ rec_implies_train db.ica) ∧
    (∀ (path : String) (db2 : database_t), db_train c db path = .ok db2 → flags db2 = flags db) ∧
    (∀ (file : file_t) (db2 : database_t), db_load db file = .ok db2 → flags db2 = flags db) ∧
    (∀ (path : String) (db2 : database_t) (out : List report_t),
      db_recognize c db path = .ok (db2, out) → flags db2 = flags db) := by
  refine ⟨?_, fun path db2 h2 => db_train_flags c db db2 path h2,
    fun file db2 h2 => db_load_flags db db2 file h2,
    fun path db2 out h2 => by rw [db_recognize_same c db db2 path out h2]⟩
  induction h with
  | construct pca lda ica params => exact db_construct_rec_implies_train c pca lda ica params
  | train db db2 path _ h2 ih => exact rec_implies_train_of_flags db db2 (db_train_flags c db db2 path h2) ih
  | load db db2 file _ h2 ih => exact rec_implies_train_of_flags db db2 (db_load_flags db db2 file h2) ih
  | recognize db db2 path out _ h2 ih =>
    rw [db_recognize_same c db db2 path out h2]
    exact ih

/-! ## Reading back what was written -/

theorem elem_at_ofNat {α : Type} (xs : List α) (i : Nat) (x : α) (h : xs[i]? = some x) :
    elem_at xs (i : Int) = .ok x := by
  unfold elem_at
  rw [if_neg (by omega)]
  simp [h]

theorem strlen_c_string (t : List char_t) (h : 0 ∉ t) : strlen (t ++ [0]) = .ok t.length := by
  induction t with
  | nil => simp [strlen]
  | cons c cs ih =>
    have hc : c ≠ 0 := fun e => h (by simp [e])
    have hcs : 0 ∉ cs := fun e => h (by simp [e])
    simp [strlen, hc, ih hcs, Except.map]

theorem foldlM_range_append {α : Type} (xs : List α) (enc : α → file_t)
    (f : file_t → Nat → Except fault file_t)
    (hf : ∀ (i : Nat) (x : α), xs[i]? = some x → ∀ file, f file i = .ok (file ++ enc x)) :
    ∀ n, n ≤ xs.length → ∀ file,
      (List.range n).foldlM f file = .ok (file ++ (xs.take n).flatMap enc) := by
  intro n
  induction n with
  | zero => intro _ file; simp [pure, Except.pure]
  | succ n ih =>
    intro hn file
    have hlt : n < xs.length := by omega
    rw [List.range_succ, List.foldlM_append, ih (by omega) file]
    simp only [bind, Except.bind, List.foldlM, pure, Except.pure]
    rw [hf n xs[n] (List.getElem?_eq_getElem hlt)]
    show Except.ok _ = _
    rw [List.take_succ, List.getElem?_eq_getElem hlt, List.flatMap_append]
    simp [List.flatMap, List.append_assoc]

theorem save_label_ok (db : database_t) (i : Nat) (l : image_label_t)
    (h : db.labels[i]? = some l) (hl : c_string l.name) (file : file_t) :
    save_label db file i = .ok (file ++ encode_label l) := by
  obtain ⟨t, ht, h0⟩ := hl
  unfold save_label
  rw [elem_at_ofNat _ _ _ h]
  simp only [bind, Except.bind, ht, strlen_c_string t h0, fwrite_int, fwrite_chars, encode_label]
  have : ((t.length : Int) + 1).toNat = (t ++ [0]).length := by simp
  rw [this, if_pos (le_refl _), List.take_length]
  simp

theorem elem_at_label (db : database_t) (e : image_entry_t)
    (h : 0 ≤ e.label ∧ e.label < db.labels.length) :
    ∃ l, elem_at db.labels e.label = .ok l ∧ label_id db e = l.id := by
  have hlt : e.label.toNat < db.labels.length := by omega
  refine ⟨db.labels[e.label.toNat], ?_, ?_⟩
  · unfold elem_at
    rw [if_neg (by omega)]
    simp [List.getElem?_eq_getElem hlt]
  · simp [label_id, List.getD, List.getElem?_eq_getElem hlt]

theorem save_entry_ok (db : database_t) (i : Nat) (e : image_entry_t)
    (h : db.entries[i]? = some e) (he : c_string e.name)
    (hl : 0 ≤ e.label ∧ e.label < db.labels.length) (file : file_t) :
    save_entry db file i = .ok (file ++ encode_entry ⟨label_id db e, e.name⟩) := by
  obtain ⟨t, ht, h0⟩ := he
  obtain ⟨l, hl1, hl2⟩ := elem_at_label db e hl
  unfold save_entry
  rw [elem_at_ofNat _ _ _ h]
  simp only [bind, Except.bind, hl1, hl2, ht, strlen_c_string t h0, fwrite_int, fwrite_chars,
    encode_entry]
  have : ((t.length : Int) + 1).toNat = (t ++ [0]).length := by simp
  rw [this, if_pos (le_refl _), List.take_length]
  simp

theorem m_fwrite_ok (file : file_t) (M : matrix_t) (h : matrix_ok M) :
    m_fwrite file (some M) = .ok (file ++ encode_matrix M) := by
  unfold matrix_ok at h
  simp only [m_fwrite, ← h, le_refl, if_true, List.take_length, encode_matrix]
  simp

theorem save_algorithm_ok (file : file_t) (a : db_algorithm_t)
    (h : a.train = true → ∃ W P, a.W = some W ∧ a.P = some P ∧ matrix_ok W ∧ matrix_ok P) :
    save_algorithm file a = .ok (file ++ encode_algorithm (saved_algorithm a)) := by
  unfold save_algorithm saved_algorithm
  by_cases ht : a.train = true
  · obtain ⟨W, P, hW, hP, hWok, hPok⟩ := h ht
    simp only [ht, if_true, hW, hP, bind, Except.bind, m_fwrite_ok _ _ hWok, m_fwrite_ok _ _ hPok,
      encode_algorithm]
    simp
  · simp [ht, encode_algorithm]

theorem db_save_ok (db : database_t) (h : saveable db) :
    db_save db = .ok (encode_record (record_of db)) := by
  obtain ⟨m, hm, hmok⟩ := h.mean_face
  unfold db_save
  have h1 := foldlM_range_append db.labels encode_label (save_label db)
    (fun i l hi file => save_label_ok db i l hi (h.label_names l (List.getElem?_mem hi)) file)
    db.labels.length (le_refl _)
  have h2 := foldlM_range_append db.entries (fun e => encode_entry ⟨label_id db e, e.name⟩)
    (save_entry db)
    (fun i e hi file => save_entry_ok db i e hi (h.entry_names e (List.getElem?_mem hi))
      (h.entry_labels e (List.getElem?_mem hi)) file)
    db.entries.length (le_refl _)
  simp only [h.num_labels, h.num_entries, Int.toNat_ofNat, bind, Except.bind, h1, h2, hm,
    m_fwrite_ok _ _ hmok, List.foldlM, fwrite_int,
    save_algorithm_ok _ _ (h.trained db.pca (by simp)),
    save_algorithm_ok _ _ (h.trained db.lda (by simp)),
    save_algorithm_ok _ _ (h.trained db.ica (by simp)), pure, Except.pure]
  simp [encode_record, record_of, hm, List.flatMap_map, List.take_length, List.append_assoc]

theorem fread_chars_ok (s : List char_t) (rest : file_t) :
    fread_chars s.length (s.map cell.chr ++ rest) = .ok (s, rest) := by
  induction s with
  | nil => rfl
  | cons c cs ih => simp [fread_chars, ih]

theorem fread_vals_ok (xs : List precision_t) (rest : file_t) :
    fread_vals xs.length (xs.map cell.val ++ rest) = .ok (xs, rest) := by
  induction xs with
  | nil => rfl
  | cons x xs ih => simp [fread_vals, ih]

theorem fread_int_cons (v : Int) (rest : file_t) :
    fread_int (cell.int v :: rest) = .ok (v, rest) := rfl

theorem load_name_ok (s : List char_t) (rest : file_t) :
    load_name (s.length : Int) (s.map cell.chr ++ rest) = .ok (s, rest) := by
  unfold load_name
  rw [if_neg (by omega), Int.toNat_ofNat, fread_chars_ok]

theorem load_label_ok (l : image_label_t) (rest : file_t) :
    load_label (encode_label l ++ rest) = .ok (l, rest) := by
  simp [load_label, encode_label, fread_int, bind, Except.bind, load_name_ok, pure, Except.pure]

theorem load_entry_ok (e : image_entry_t) (rest : file_t) :
    load_entry (encode_entry e ++ rest) = .ok (e, rest) := by
  simp [load_entry, encode_entry, fread_int, bind, Except.bind, load_name_ok, pure, Except.pure]

theorem load_labels_ok (ls : List image_label_t) (rest : file_t) :
    load_labels ls.length (ls.flatMap encode_label ++ rest) = .ok (ls, rest) := by
  induction ls with
  | nil => rfl
  | cons l ls ih =>
    simp [load_labels, List.flatMap_cons, List.append_assoc, load_label_ok, ih, bind, Except.bind,
      pure, Except.pure]

theorem load_entries_ok (es : List image_entry_t) (rest : file_t) :
    load_entries es.length (es.flatMap encode_entry ++ rest) = .ok (es, rest) := by
  induction es with
  | nil => rfl
  | cons e es ih =>
    simp [load_entries, List.flatMap_cons, List.append_assoc, load_entry_ok, ih, bind, Except.bind,
      pure, Except.pure]

theorem m_fread_ok (M : matrix_t) (h : matrix_ok M) (rest : file_t) :
    m_fread (encode_matrix M ++ rest) = .ok (M, rest) := by
  unfold matrix_ok at h
  simp [m_fread, encode_matrix, fread_int, ← h, fread_vals_ok]

theorem load_algorithm_ok (algo : db_algorithm_t) (a : Option (matrix_t × matrix_t))
    (ht : algo.train = a.isSome)
    (hok : ∀ W P : matrix_t, a = some (W, P) → matrix_ok W ∧ matrix_ok P) (rest : file_t) :
    load_algorithm algo (encode_algorithm a ++ rest) = .ok (loaded_algorithm algo a, rest) := by
  unfold load_algorithm
  cases a with
  | none => simp at ht; simp [ht, encode_algorithm, loaded_algorithm]
  | some wp =>
    obtain ⟨W, P⟩ := wp
    obtain ⟨hW, hP⟩ := hok W P rfl
    simp at ht
    simp [ht, encode_algorithm, loaded_algorithm, List.append_assoc, m_fread_ok _ hW,
      m_fread_ok _ hP, bind, Except.bind, pure, Except.pure]

theorem db_load_ok (db : database_t) (r : record_t) (hok : record_ok r)
    (hpca : db.pca.train = r.pca.isSome) (hlda : db.lda.train = r.lda.isSome)
    (hica : db.ica.train = r.ica.isSome) :
    db_load db (encode_record r) = .ok { db with
      num_labels := r.labels.length
      labels := r.labels
      num_entries := r.entries.length
      entries := r.entries
      mean_face := some r.mean_face
      pca := loaded_algorithm db.pca r.pca
      lda := loaded_algorithm db.lda r.lda
      ica := loaded_algorithm db.ica r.ica } := by
  have h1 := load_algorithm_ok db.pca r.pca hpca (hok.2 r.pca (by simp))
  have h2 := load_algorithm_ok db.lda r.lda hlda (hok.2 r.lda (by simp))
  have h3 := load_algorithm_ok db.ica r.ica hica (hok.2 r.ica (by simp)) []
  rw [List.append_nil] at h3
  simp only [db_load, encode_record, List.singleton_append, List.cons_append, List.nil_append, fread_int_cons,
    bind, Except.bind, Int.toNat_ofNat, load_labels_ok, load_entries_ok, m_fread_ok _ hok.1,
    h1, h2, h3, pure, Except.pure]

/-! ## db_save and db_load: the claims -/

theorem record_of_ok (db : database_t) (h : saveable db) : record_ok (record_of db) := by
  obtain ⟨m, hm, hmok⟩ := h.mean_face
  refine ⟨by simpa [record_of, hm] using hmok, ?_⟩
  have key : ∀ a ∈ [db.pca, db.lda, db.ica], ∀ W P : matrix_t,
      saved_algorithm a = some (W, P) → matrix_ok W ∧ matrix_ok P := by
    intro a ha W P hWP
    unfold saved_algorithm at hWP
    split at hWP
    · rename_i ht
      obtain ⟨W2, P2, hW, hP, hWok, hPok⟩ := h.trained a ha ht
      simp only [hW, hP, Option.some.injEq, Prod.mk.injEq] at hWP
      obtain ⟨rfl, rfl⟩ := hWP
      exact ⟨hWok, hPok⟩
    · cases hWP
  intro a ha W P hWP
  simp only [record_of, List.mem_cons, List.mem_singleton, List.not_mem_nil, or_false] at ha
  rcases ha with rfl | rfl | rfl
  · exact key db.pca (by simp) W P hWP
  · exact key db.lda (by simp) W P hWP
  · exact key db.ica (by simp) W P hWP

theorem saved_algorithm_isSome (a : db_algorithm_t)
    (h : a.train = true → ∃ W P, a.W = some W ∧ a.P = some P ∧ matrix_ok W ∧ matrix_ok P) :
    (saved_algorithm a).isSome = a.train := by
  unfold saved_algorithm
  by_cases ht : a.train = true
  · obtain ⟨W, P, hW, hP, _, _⟩ := h ht
    simp [ht, hW, hP]
  · simp [ht]

theorem loaded_saved_algorithm (a0 a : db_algorithm_t) (ht : a.train = true)
    (h : a.train = true → ∃ W P, a.W = some W ∧ a.P = some P ∧ matrix_ok W ∧ matrix_ok P) :
    (loaded_algorithm a0 (saved_algorithm a)).W = a.W ∧
    (loaded_algorithm a0 (saved_algorithm a)).P = a.P := by
  obtain ⟨W, P, hW, hP, _, _⟩ := h ht
  simp [saved_algorithm, loaded_algorithm, ht, hW, hP]

theorem record_of_entries (db : database_t) (h : saveable db)
    (hid : ∀ (k : Nat) (l : image_label_t), db.labels[k]? = some l → l.id = k) :
    (record_of db).entries = db.entries := by
  show db.entries.map (fun e => (⟨label_id db e, e.name⟩ : image_entry_t)) = db.entries
  conv_rhs => rw [← List.map_id db.entries]
  apply List.map_congr_left
  intro e he
  obtain ⟨h0, h1⟩ := h.entry_labels e he
  have hlt : e.label.toNat < db.labels.length := by omega
  have := hid e.label.toNat db.labels[e.label.toNat] (List.getElem?_eq_getElem hlt)
  have hl : label_id db e = e.label := by
    unfold label_id
    rw [List.getD_eq_getElem?_getD, List.getElem?_eq_getElem hlt, Option.getD_some, this]
    exact Int.toNat_of_nonneg h0
  cases e
  simp only [id] at hl ⊢
  rw [hl]

/-- C2, as amended: for a database that `db_save` can write and in which
the label at position `k` has id `k`, `db_save` returns a file, and `db_load`
of that file into a database constructed with the same flags returns a
database with the same labels, the same entries, each pointing to the same
label, the same mean face, and the same `W` and `P` in every slot whose
train flag is set. -/
theorem db_save_load_round_trip (c : collaborators) (pca lda ica : Int) (params : db_params_t)
    (db : database_t) (hs : saveable db)
    (hflags : flags db = flags (db_construct c pca lda ica params))
    (hid : ∀ (k : Nat) (l : image_label_t), db.labels[k]? = some l → l.id = k) :
    ∃ (file : file_t) (db2 : database_t),
      db_save db = .ok file ∧
      db_load (db_construct c pca lda ica params) file = .ok db2 ∧
      db2.num_labels = db.num_labels ∧ db2.labels = db.labels ∧
      db2.num_entries = db.num_entries ∧ db2.entries = db.entries ∧
      db2.mean_face = db.mean_face ∧
      (db.pca.train = true → db2.pca.W = db.pca.W ∧ db2.pca.P = db.pca.P) ∧
      (db.lda.train = true → db2.lda.W = db.lda.W ∧ db2.lda.P = db.lda.P) ∧
      (db.ica.train = true → db2.ica.W = db.ica.W ∧ db2.ica.P = db.ica.P) := by
  simp only [flags, List.cons.injEq, and_true] at hflags
  obtain ⟨f1, _, f2, _, f3, _⟩ := hflags
  have t1 := hs.trained db.pca (by simp)
  have t2 := hs.trained db.lda (by simp)
  have t3 := hs.trained db.ica (by simp)
  obtain ⟨m, hm, _⟩ := hs.mean_face
  refine ⟨encode_record (record_of db), _, db_save_ok db hs,
    db_load_ok (db_construct c pca lda ica params) (record_of db) (record_of_ok db hs)
      (by rw [← f1]; exact (saved_algorithm_isSome db.pca t1).symm)
      (by rw [← f2]; exact (saved_algorithm_isSome db.lda t2).symm)
      (by rw [← f3]; exact (saved_algorithm_isSome db.ica t3).symm),
    ?_, rfl, ?_, record_of_entries db hs hid, ?_, ?_, ?_, ?_⟩
  · exact hs.num_labels.symm
  · show (((record_of db).entries.length : Nat) : Int) = db.num_entries
    rw [record_of_entries db hs hid, hs.num_entries]
  · simp [record_of, hm]
  · exact fun ht => loaded_saved_algorithm _ db.pca ht t1
  · exact fun ht => loaded_saved_algorithm _ db.lda ht t2
  · exact fun ht => loaded_saved_algorithm _ db.ica ht t3

theorem sample_db_saveable : saveable sample_db where
  num_labels := rfl
  num_entries := rfl
  label_names := by
    intro l hl
    simp only [sample_db, sample_dir, List.mem_cons, List.mem_singleton, List.not_mem_nil,
      or_false] at hl
    rcases hl with rfl | rfl
    · exact ⟨[97], rfl, by decide⟩
    · exact ⟨[98], rfl, by decide⟩
  entry_names := by
    intro e he
    simp only [sample_db, sample_dir, List.mem_cons, List.mem_singleton, List.not_mem_nil,
      or_false] at he
    rcases he with rfl | rfl | rfl
    · exact ⟨[97, 47, 48], rfl, by decide⟩
    · exact ⟨[98, 47, 48], rfl, by decide⟩
    · exact ⟨[98, 47, 51], rfl, by decide⟩
  entry_labels := by
    intro e he
    simp only [sample_db, sample_dir, List.mem_cons, List.mem_singleton, List.not_mem_nil,
      or_false] at he
    rcases he with rfl | rfl | rfl <;> decide
  mean_face := ⟨⟨1, 1, [49]⟩, rfl, rfl⟩
  trained := by
    intro a ha ht
    simp only [sample_db, List.mem_cons, List.mem_singleton, List.not_mem_nil, or_false] at ha
    rcases ha with rfl | rfl | rfl
    · exact ⟨⟨1, 1, [1]⟩, ⟨1, 3, [-1, -1, 2]⟩, rfl, rfl, rfl, rfl⟩
    · cases ht
    · cases ht

/-- Witness for C2 as amended: the sample database. -/
theorem db_save_load_round_trip_witness :
    ∃ (file : file_t) (db2 : database_t),
      db_save sample_db = .ok file ∧
      db_load (db_construct sample_lib 1 0 0 sample_params) file = .ok db2 ∧
      db2.num_labels = sample_db.num_labels ∧ db2.labels = sample_db.labels ∧
      db2.num_entries = sample_db.num_entries ∧ db2.entries = sample_db.entries ∧
      db2.mean_face = sample_db.mean_face ∧
      (sample_db.pca.train = true →
        db2.pca.W = sample_db.pca.W ∧ db2.pca.P = sample_db.pca.P) ∧
      (sample_db.lda.train = true →
        db2.lda.W = sample_db.lda.W ∧ db2.lda.P = sample_db.lda.P) ∧
      (sample_db.ica.train = true →
        db2.ica.W = sample_db.ica.W ∧ db2.ica.P = sample_db.ica.P) :=
  db_save_load_round_trip sample_lib 1 0 0 sample_params sample_db sample_db_saveable
    (by decide)
    (by
      intro k l h
      rcases k with _ | _ | k
      · cases h; rfl
      · cases h; rfl
      · cases h)

/-- C2, counterexample: in `swapped_db` the two label ids are distinct and
every entry points to a label of the database; `db_save` writes it and
`db_load` reads the file back, with the labels unchanged; but the three
entries, which pointed to the labels `a`, `b`, `b`, now point to `b`, `a`,
`a`. -/
theorem db_save_load_counterexample :
    (swapped_db.labels.map (fun l => l.id)).Nodup ∧
    (∀ e ∈ swapped_db.entries, 0 ≤ e.label ∧ e.label < swapped_db.labels.length) ∧
    flags swapped_db = flags (db_construct sample_lib 1 0 0 sample_params) ∧
    swapped_db.entries.map (label_of swapped_db.labels)
      = [some ⟨1, [97, 0]⟩, some ⟨0, [98, 0]⟩, some ⟨0, [98, 0]⟩] ∧
    ((db_save swapped_db).toOption.bind
        (fun file => (db_load (db_construct sample_lib 1 0 0 sample_params) file).toOption)).map
      (fun db2 => (db2.labels, db2.entries.map (label_of db2.labels)))
      = some (swapped_db.labels, [some ⟨0, [98, 0]⟩, some ⟨1, [97, 0]⟩, some ⟨1, [97, 0]⟩]) := by
  decide!

/-- C3, as amended: `db_load` does not compare a label id with the number of
labels. For every record whose matrices are complete and whose trained
algorithms are those of the database loaded into, `db_load` returns a
database whose entries carry the label ids of the record as they are,
whatever their values. -/
theorem db_load_keeps_label_ids (db : database_t) (r : record_t) (hok : record_ok r)
    (hpca : db.pca.train = r.pca.isSome) (hlda : db.lda.train = r.lda.isSome)
    (hica : db.ica.train = r.ica.isSome) :
    ∃ db2 : database_t,
      db_load db (encode_record r) = .ok db2 ∧
      db2.num_labels = r.labels.length ∧ db2.labels = r.labels ∧
      db2.entries = r.entries ∧
      db2.entries.map (fun e => e.label) = r.entries.map (fun e => e.label) :=
  ⟨_, db_load_ok db r hok hpca hlda hica, rfl, rfl, rfl, rfl⟩

/-- Witness for C3 as amended: a record with one label and an entry of label
id `7`. -/
theorem db_load_keeps_label_ids_witness :
    ∃ db2 : database_t,
      db_load (db_construct sample_lib 0 0 0 sample_params) (encode_record corrupt_record)
        = .ok db2 ∧
      db2.num_labels = corrupt_record.labels.length ∧ db2.labels = corrupt_record.labels ∧
      db2.entries = corrupt_record.entries ∧
      db2.entries.map (fun e => e.label) = corrupt_record.entries.map (fun e => e.label) :=
  db_load_keeps_label_ids (db_construct sample_lib 0 0 0 sample_params) corrupt_record
    ⟨rfl, by
      intro a ha W P h
      simp only [corrupt_record, List.mem_cons, List.mem_singleton, List.not_mem_nil,
        or_false, or_self] at ha
      rw [ha] at h
      cases h⟩
    rfl rfl rfl

/-- C3, counterexample: `corrupt_file` holds one label and one entry whose
label id is `7`; `db_load` returns a database with `num_labels = 1` whose
entry points to `labels[7]`. -/
theorem db_load_out_of_range_counterexample :
    encode_record corrupt_record = corrupt_file ∧
    (db_load (db_construct sample_lib 0 0 0 sample_params) corrupt_file).toOption.map
      (fun db2 => (db2.num_labels, db2.labels.length, db2.entries))
      = some (1, 1, [⟨7, [120, 0]⟩]) := by
  decide

/-! ## db_recognize -/

theorem elem_at_ok {α : Type} (xs : List α) (i : Int) (d : α) (h0 : 0 ≤ i)
    (h1 : i < xs.length) : elem_at xs i = .ok (xs.getD i.toNat d) := by
  have hlt : i.toNat < xs.length := by omega
  unfold elem_at
  rw [if_neg (by omega)]
  simp [List.getD_eq_getElem?_getD, List.getElem?_eq_getElem hlt]

theorem foldlM_indices_ok {σ : Type} (n : Nat) (f : σ → Nat → Except fault σ)
    (hf : ∀ s i, i < n → ∃ s2, f s i = .ok s2) :
    ∀ (l : List Nat), (∀ i ∈ l, i < n) → ∀ s, ∃ s2, l.foldlM f s = .ok s2 := by
  intro l
  induction l with
  | nil => intro _ s; exact ⟨s, rfl⟩
  | cons i l ih =>
    intro hl s
    obtain ⟨s2, h2⟩ := hf s i (hl i (by simp))
    obtain ⟨s3, h3⟩ := ih (fun k hk => hl k (by simp [hk])) s2
    exact ⟨s3, by simp [List.foldlM, h2, h3, bind, Except.bind]⟩

theorem get_image_matrix_ok (c : collaborators) (entries : List image_entry_t)
    (h : 1 ≤ entries.length) :
    ∃ X, get_image_matrix c entries (entries.length : Int) = .ok X := by
  unfold get_image_matrix
  rw [elem_at_ok entries 0 ⟨0, []⟩ (le_refl _) (by omega)]
  obtain ⟨s2, h2⟩ := foldlM_indices_ok entries.length
    (fun (s : image_t × matrix_t) (i : Nat) => do
      let e ← elem_at entries i
      let image := c.image_read s.1 e.name
      pure (image, c.m_image_read s.2 i image))
    (fun s i hi => by
      beta_reduce
      rw [elem_at_ok entries i ⟨0, []⟩ (by omega) (by omega)]
      exact ⟨_, rfl⟩)
    (List.range' 1 (entries.length - 1))
    (fun i hi => by
      rw [List.mem_range'_1] at hi
      omega)
    (c.image_read c.image_construct (entries.getD (0 : Int).toNat ⟨0, []⟩).name,
      c.m_image_read
        (c.m_initialize
          ((c.image_read c.image_construct (entries.getD (0 : Int).toNat ⟨0, []⟩).name).channels
            * (c.image_read c.image_construct (entries.getD (0 : Int).toNat ⟨0, []⟩).name).height
            * (c.image_read c.image_construct (entries.getD (0 : Int).toNat ⟨0, []⟩).name).width)
          (entries.length : Int))
        0 (c.image_read c.image_construct (entries.getD (0 : Int).toNat ⟨0, []⟩).name))
  refine ⟨s2.2, ?_⟩
  simp only [bind, Except.bind, Int.toNat_ofNat, pure, Except.pure] at h2 ⊢
  rw [h2]

theorem nn_scan_range (P P_test : matrix_t) (i : Int) (d : dist_func_t) (n : Nat) :
    0 ≤ (nn_scan P P_test i d (n + 1)).min_index ∧
    (nn_scan P P_test i d (n + 1)).min_index < ((n + 1 : Nat) : Int) := by
  induction n with
  | zero => rw [nn_scan_one]; simp
  | succ n ih =>
    rw [nn_scan_succ]
    unfold nn_update
    split
    · simp only; constructor <;> omega
    · exact ⟨ih.1, by have := ih.2; push_cast at this ⊢; omega⟩

theorem nearest_neighbor_range (P P_test : matrix_t) (i : Int) (d : dist_func_t)
    (h : 1 ≤ P.cols) :
    0 ≤ nearest_neighbor P P_test i d ∧ nearest_neighbor P P_test i d < P.cols := by
  obtain ⟨n, hn⟩ : ∃ n : Nat, P.cols.toNat = n + 1 := ⟨P.cols.toNat - 1, by omega⟩
  unfold nearest_neighbor
  rw [hn]
  have := nn_scan_range P P_test i d n
  refine ⟨this.1, ?_⟩
  have h2 := this.2
  omega

theorem c_str_cons (x : char_t) (xs : List char_t) :
    c_str (x :: xs) = if x = 0 then [] else x :: c_str xs := by
  unfold c_str
  by_cases h : x = 0 <;> simp [List.takeWhile, h]

theorem strcmp_ok (a : List char_t) :
    ∀ b : List char_t, 0 ∈ a → 0 ∈ b → ∃ v, strcmp a b = .ok v ∧ (v = 0 ↔ c_str a = c_str b) := by
  induction a with
  | nil => intro b ha; simp at ha
  | cons x as ih =>
    intro b ha hb
    cases b with
    | nil => simp at hb
    | cons y bs =>
      unfold strcmp
      by_cases hxy : x = y
      · subst hxy
        by_cases hx : x = 0
        · subst hx
          exact ⟨0, by simp, by simp [c_str_cons]⟩
        · have ha2 : 0 ∈ as := by
            rcases List.mem_cons.mp ha with h | h
            · exact absurd h.symm hx
            · exact h
          have hb2 : 0 ∈ bs := by
            rcases List.mem_cons.mp hb with h | h
            · exact absurd h.symm hx
            · exact h
          obtain ⟨v, hv, hiff⟩ := ih bs ha2 hb2
          refine ⟨v, by simp [hx, hv], ?_⟩
          rw [hiff]
          simp [c_str_cons, hx]
      · refine ⟨(x : Int) - (y : Int), by simp [hxy], ?_⟩
        constructor
        · intro h
          exact absurd (Int.ofNat_inj.mp (sub_eq_zero.mp h)) hxy
        · intro h
          rw [c_str_cons, c_str_cons] at h
          by_cases hx : x = 0 <;> by_cases hy : y = 0 <;> simp [hx, hy] at h
          · exact absurd (hx.trans hy.symm) hxy
          · exact absurd h.1 hxy

theorem mapM_ok {α β : Type} (f : α → Except fault β) (g : α → β) (l : List α)
    (h : ∀ x ∈ l, f x = .ok (g x)) : l.mapM f = .ok (l.map g) := by
  induction l with
  | nil => rfl
  | cons x xs ih =>
    rw [List.mapM_cons, h x (by simp), ih (fun y hy => h y (by simp [hy]))]
    rfl

theorem foldlM_count (n : Nat) (f : Int → Nat → Except fault Int) (p : Nat → Bool)
    (hf : ∀ acc j, j < n → f acc j = .ok (if p j = true then acc + 1 else acc)) :
    ∀ m, m ≤ n → ∀ acc : Int,
      (List.range m).foldlM f acc = .ok (acc + ((List.range m).countP p : Nat)) := by
  intro m
  induction m with
  | zero => intro _ acc; simp [pure, Except.pure]
  | succ m ih =>
    intro hm acc
    rw [List.range_succ, List.foldlM_append, ih (by omega) acc]
    simp only [bind, Except.bind, List.foldlM, pure, Except.pure]
    rw [hf _ m (by omega)]
    show Except.ok _ = _
    rw [List.countP_append]
    by_cases hp : p m = true
    · simp [hp, List.countP_cons, add_assoc]
    · simp [hp, List.countP_cons]

theorem getD_mem {α : Type} (xs : List α) (i : Nat) (d : α) (h : i < xs.length) :
    xs.getD i d ∈ xs := by
  rw [List.getD_eq_getElem?_getD, List.getElem?_eq_getElem h]
  exact List.getElem_mem h

theorem rec_labels_loop_ok (db : database_t) (a : db_algorithm_t) (P P_test : matrix_t) (n : Nat)
    (hP : a.P = some P) (h1 : 1 ≤ P.cols) (h2 : P.cols ≤ db.entries.length) :
    rec_labels_loop db a P_test (n : Int)
      = .ok ((List.range n).map (rec_label db P P_test a.dist_func)) := by
  unfold rec_labels_loop
  rw [Int.toNat_ofNat]
  apply mapM_ok
  intro j _
  have hr := nearest_neighbor_range P P_test j a.dist_func h1
  simp only [hP, deref, bind, Except.bind, pure, Except.pure]
  rw [elem_at_ok db.entries _ ⟨0, []⟩ hr.1 (by omega)]
  rfl

theorem rec_label_valid (db : database_t) (P P_test : matrix_t) (d : dist_func_t) (j : Nat)
    (hl : ∀ e ∈ db.entries, 0 ≤ e.label ∧ e.label < db.labels.length)
    (h1 : 1 ≤ P.cols) (h2 : P.cols ≤ db.entries.length) :
    0 ≤ rec_label db P P_test d j ∧ rec_label db P P_test d j < db.labels.length := by
  have hr := nearest_neighbor_range P P_test j d h1
  exact hl _ (getD_mem db.entries _ _ (by omega))

theorem count_correct_ok (db : database_t) (dir : directory_t) (hr : recognizable db dir)
    (P P_test : matrix_t) (d : dist_func_t) (h1 : 1 ≤ P.cols) (h2 : P.cols ≤ db.entries.length)
    (acc : Int) (j : Nat) (hj : j < dir.entries.length) :
    count_correct db dir ((List.range dir.entries.length).map (rec_label db P P_test d)) acc j
      = .ok (if decide (label_name db.labels (rec_label db P P_test d j)
            = label_name dir.labels (dir.entries.getD j ⟨0, []⟩).label) = true
          then acc + 1 else acc) := by
  have hv := rec_label_valid db P P_test d j hr.db_labels h1 h2
  have he := hr.dir_labels _ (getD_mem dir.entries j ⟨0, []⟩ hj)
  obtain ⟨v, hv1, hv2⟩ := strcmp_ok (db.labels.getD (rec_label db P P_test d j).toNat ⟨0, []⟩).name
    (dir.labels.getD (dir.entries.getD j ⟨0, []⟩).label.toNat ⟨0, []⟩).name
    (hr.db_names _ (getD_mem db.labels _ _ (by omega)))
    (hr.dir_names _ (getD_mem dir.labels _ _ (by omega)))
  unfold count_correct
  rw [elem_at_ok _ (j : Int) 0 (by omega) (by simp; omega)]
  have hg : ((List.range dir.entries.length).map (rec_label db P P_test d)).getD
      ((j : Int)).toNat 0 = rec_label db P P_test d j := by
    simp [List.getD_eq_getElem?_getD, List.getElem?_map, List.getElem?_range hj]
  simp only [bind, Except.bind, hg]
  rw [elem_at_ok db.labels _ ⟨0, []⟩ hv.1 hv.2]
  simp only []
  rw [elem_at_ok dir.entries (j : Int) ⟨0, []⟩ (by omega) (by omega)]
  simp only [Int.toNat_ofNat]
  rw [elem_at_ok dir.labels _ ⟨0, []⟩ he.1 he.2]
  simp only [hv1, pure, Except.pure, label_name, decide_eq_true_eq]
  by_cases h0 : v = 0
  · rw [if_pos h0, if_pos (hv2.mp h0)]
  · rw [if_neg h0, if_neg (fun h => h0 (hv2.mpr h))]

theorem recognize_algorithm_ok (c : collaborators) (db : database_t) (dir : directory_t)
    (hr : recognizable db dir) (X_test : matrix_t) (a : db_algorithm_t) (W P : matrix_t)
    (hW : a.W = some W) (hP : a.P = some P) (h1 : 1 ≤ P.cols) (h2 : P.cols ≤ db.entries.length) :
    recognize_algorithm c db dir X_test a = .ok
      ⟨a.name,
       (List.range dir.entries.length).map
         (rec_label db P (c.m_product W X_test true false) a.dist_func),
       (num_matches db dir P (c.m_product W X_test true false) a.dist_func : Nat),
       dir.num_entries,
       f32_div
         (f32_mul 100
           (f32_of_int (num_matches db dir P (c.m_product W X_test true false) a.dist_func : Nat)))
         (f32_of_int dir.num_entries)⟩ := by
  unfold recognize_algorithm
  simp only [hW, deref, bind, Except.bind, hr.num_entries,
    rec_labels_loop_ok db a P _ dir.entries.length hP h1 h2, Int.toNat_ofNat]
  rw [foldlM_count dir.entries.length _ _
    (fun acc j hj => count_correct_ok db dir hr P _ a.dist_func h1 h2 acc j hj)
    dir.entries.length (le_refl _) 0]
  simp [pure, Except.pure, num_matches]


theorem foldlM_slots (f : db_algorithm_t → Except fault report_t) (g : db_algorithm_t → report_t)
    (l : List db_algorithm_t) (h : ∀ a ∈ l, a.rec_ = true → f a = .ok (g a)) :
    ∀ out : List report_t,
      l.foldlM
        (fun (out : List report_t) (algo : db_algorithm_t) =>
          if algo.rec_ then do
            let r ← f algo
            pure (out ++ [r])
          else pure out)
        out
      = .ok (out ++ (l.filter (fun a => a.rec_)).map g) := by
  induction l with
  | nil => intro out; simp [pure, Except.pure]
  | cons a l ih =>
    intro out
    have ih2 := ih (fun b hb => h b (by simp [hb]))
    by_cases ha : a.rec_ = true
    · simp only [List.foldlM, ha, if_true, h a (by simp) ha, bind, Except.bind, pure,
        Except.pure] at ih2 ⊢
      rw [ih2]
      simp [List.filter, ha]
    · simp only [List.foldlM, ha, bind, Except.bind, pure, Except.pure, Bool.false_eq_true,
        if_false] at ih2 ⊢
      rw [ih2]
      simp [List.filter, ha]

theorem db_recognize_ok (c : collaborators) (db : database_t) (path : String)
    (hr : recognizable db (c.get_directory path)) :
    ∃ X, get_image_matrix c (c.get_directory path).entries (c.get_directory path).num_entries
        = .ok X ∧
      db_recognize c db path = .ok (db,
        ([db.pca, db.lda, db.ica].filter (fun a => a.rec_)).map
          (expected_report c db (c.get_directory path) X)) := by
  obtain ⟨X, hX⟩ := get_image_matrix_ok c (c.get_directory path).entries hr.nonempty
  rw [← hr.num_entries] at hX
  obtain ⟨m, hm⟩ := hr.mean_face
  refine ⟨X, hX, ?_⟩
  unfold db_recognize
  simp only [hX, hm, deref, bind, Except.bind, pure, Except.pure]
  have hslots := foldlM_slots
    (recognize_algorithm c db (c.get_directory path) (c.m_subtract_columns X m))
    (expected_report c db (c.get_directory path) X) [db.pca, db.lda, db.ica]
    (fun a ha hrec => by
      obtain ⟨W, P, hW, hP, h1, h2⟩ := hr.slots a ha hrec
      rw [recognize_algorithm_ok c db _ hr _ a W P hW hP h1 h2]
      simp [expected_report, slot_matches, projected_test, hW, hP, hm, hr.num_entries])
    []
  simp only [bind, Except.bind, pure, Except.pure] at hslots
  rw [hslots]
  rfl

/-! ## db_recognize: the claims -/

theorem num_matches_le (db : database_t) (dir : directory_t) (P P_test : matrix_t)
    (d : dist_func_t) : num_matches db dir P P_test d ≤ dir.entries.length := by
  unfold num_matches
  have h := List.countP_le_length (fun j => decide (label_name db.labels (rec_label db P P_test d j)
      = label_name dir.labels (dir.entries.getD j ⟨0, []⟩).label))
    (l := List.range dir.entries.length)
  rw [List.length_range] at h
  exact h

/-- C8, as amended: on a database and a test set of `n ≥ 1` entries on which
it is defined, `db_recognize` returns one report per slot whose rec flag is
set; its `num_correct` is `c`, the number of test entries whose given label,
the label of the training entry at index `nearest_neighbor(P, P_test, j,
dist_func)`, has the same name as their own label; its accuracy is the
`float` value of `100.0f * c / n`, that is `100 * c / n` with `c`, `n`, the
product and the quotient each rounded to `float`; that value is not negative,
is within `100 * c / n / 2^21` of `100 * c / n`, and is at most
`100 * (1 + 1 / 2^21)`. -/
theorem db_recognize_accuracy (c : collaborators) (db : database_t) (path : String)
    (hr : recognizable db (c.get_directory path)) :
    ∃ (X : matrix_t) (rs : List report_t),
      get_image_matrix c (c.get_directory path).entries (c.get_directory path).num_entries
        = .ok X ∧
      db_recognize c db path = .ok (db, rs) ∧
      rs.map (fun r => (r.name, r.num_correct, r.num_entries, r.accuracy))
        = ([db.pca, db.lda, db.ica].filter (fun a => a.rec_)).map (fun a =>
            (a.name,
             ((slot_matches c db (c.get_directory path) X a : Nat) : Int),
             (((c.get_directory path).entries.length : Nat) : Int),
             some (round_f32
               (round_f32 (100 * round_f32 (slot_matches c db (c.get_directory path) X a : ℚ))
                 / round_f32 ((c.get_directory path).entries.length : ℚ))))) ∧
      ∀ r ∈ rs, ∃ x : ℚ, r.accuracy = some x ∧ 0 ≤ x ∧
        |x - 100 * (r.num_correct : ℚ) / (r.num_entries : ℚ)|
          ≤ 100 * (r.num_correct : ℚ) / (r.num_entries : ℚ) / 2 ^ 21 ∧
        x ≤ 100 * (1 + 1 / 2 ^ 21) := by
  obtain ⟨X, hX, hrec⟩ := db_recognize_ok c db path hr
  have hval : ∀ a : db_algorithm_t,
      (expected_report c db (c.get_directory path) X a).accuracy
        = some (round_f32
            (round_f32 (100 * round_f32 (slot_matches c db (c.get_directory path) X a : ℚ))
              / round_f32 ((c.get_directory path).entries.length : ℚ))) := by
    intro a
    simp only [expected_report, hr.num_entries]
    exact accuracy_value _ _ hr.nonempty
  refine ⟨X, _, hX, hrec, ?_, ?_⟩
  · rw [List.map_map]
    apply List.map_congr_left
    intro a _
    simp only [Function.comp_apply, hval a]
    simp [expected_report, hr.num_entries]
  · intro r hmem
    obtain ⟨a, _, rfl⟩ := List.mem_map.mp hmem
    have hn : (0 : ℚ) < ((c.get_directory path).entries.length : ℚ) := by
      have := hr.nonempty
      exact_mod_cast this
    have hle : ((slot_matches c db (c.get_directory path) X a : Nat) : ℚ)
        ≤ ((c.get_directory path).entries.length : ℚ) := by
      exact_mod_cast num_matches_le db (c.get_directory path) _ _ _
    have h0 : (0 : ℚ) ≤ ((slot_matches c db (c.get_directory path) X a : Nat) : ℚ) :=
      Nat.cast_nonneg _
    obtain ⟨b1, b2⟩ := accuracy_bounds (slot_matches c db (c.get_directory path) X a)
      (c.get_directory path).entries.length hr.nonempty
    have hE : 100 * ((slot_matches c db (c.get_directory path) X a : Nat) : ℚ)
        / ((c.get_directory path).entries.length : ℚ) ≤ 100 := by
      rw [div_le_iff₀ hn]
      exact mul_le_mul_of_nonneg_left hle (by norm_num)
    have hE0 : 0 ≤ 100 * ((slot_matches c db (c.get_directory path) X a : Nat) : ℚ)
        / ((c.get_directory path).entries.length : ℚ) :=
      div_nonneg (mul_nonneg (by norm_num) h0) (le_of_lt hn)
    refine ⟨_, hval a, b1, ?_, ?_⟩
    · simp only [expected_report, hr.num_entries, Int.cast_natCast]
      exact b2
    · rw [abs_le] at b2
      have hE2 : 100 * ((slot_matches c db (c.get_directory path) X a : Nat) : ℚ)
          / ((c.get_directory path).entries.length : ℚ) / 2 ^ 21 ≤ 100 / 2 ^ 21 :=
        div_le_div_of_nonneg_right hE (by norm_num)
      linarith [b2.2]

theorem same_dataset_recognizable (c : collaborators) (db : database_t) (path : String)
    (X : matrix_t) (hs : same_dataset c db path X) :
    recognizable db (c.get_directory path) where
  num_entries := by rw [hs.num_entries, hs.entries]
  nonempty := by rw [hs.entries]; exact hs.nonempty
  mean_face := hs.mean_face
  db_labels := hs.entry_labels
  dir_labels := by rw [hs.entries, hs.labels]; exact hs.entry_labels
  db_names := hs.label_names
  dir_names := by rw [hs.labels]; exact hs.label_names
  slots := by
    intro a ha hrec
    obtain ⟨W, P, hW, hP, hc, _⟩ := hs.slots a ha hrec
    exact ⟨W, P, hW, hP, by have := hs.nonempty; omega, by omega⟩

theorem sample_same_dataset : same_dataset sample_lib sample_db "faces" ⟨1, 3, [48, 48, 51]⟩ where
  entries := by decide!
  labels := by decide!
  num_entries := by decide!
  nonempty := by decide
  image_matrix := by decide!
  mean_face := ⟨_, rfl⟩
  entry_labels := by decide
  label_names := by decide
  slots := by
    intro a ha hrec
    simp only [List.mem_cons, List.mem_singleton, List.not_mem_nil, or_false] at ha
    rcases ha with rfl | rfl | rfl
    · exact ⟨⟨1, 1, [1]⟩, ⟨1, 3, [-1, -1, 2]⟩, rfl, rfl, rfl, by decide!⟩
    · cases hrec
    · cases hrec

theorem sample_recognizable : recognizable sample_db (sample_lib.get_directory "faces") :=
  same_dataset_recognizable sample_lib sample_db "faces" ⟨1, 3, [48, 48, 51]⟩ sample_same_dataset

/-- Witness for C8 as amended: the sample database on its own dataset. -/
theorem db_recognize_accuracy_witness :
    ∃ (X : matrix_t) (rs : List report_t),
      get_image_matrix sample_lib (sample_lib.get_directory "faces").entries
        (sample_lib.get_directory "faces").num_entries = .ok X ∧
      db_recognize sample_lib sample_db "faces" = .ok (sample_db, rs) ∧
      rs.map (fun r => (r.name, r.num_correct, r.num_entries, r.accuracy))
        = ([sample_db.pca, sample_db.lda, sample_db.ica].filter (fun a => a.rec_)).map (fun a =>
            (a.name,
             ((slot_matches sample_lib sample_db (sample_lib.get_directory "faces") X a : Nat) :
                Int),
             (((sample_lib.get_directory "faces").entries.length : Nat) : Int),
             some (round_f32
               (round_f32 (100 * round_f32
                   (slot_matches sample_lib sample_db (sample_lib.get_directory "faces") X a : ℚ))
                 / round_f32 ((sample_lib.get_directory "faces").entries.length : ℚ))))) ∧
      ∀ r ∈ rs, ∃ x : ℚ, r.accuracy = some x ∧ 0 ≤ x ∧
        |x - 100 * (r.num_correct : ℚ) / (r.num_entries : ℚ)|
          ≤ 100 * (r.num_correct : ℚ) / (r.num_entries : ℚ) / 2 ^ 21 ∧
        x ≤ 100 * (1 + 1 / 2 ^ 21) :=
  db_recognize_accuracy sample_lib sample_db "faces" sample_recognizable

/-- C8, counterexample: on the sample database `db_recognize` finds `c = 2`
matches among `n = 3` entries and its accuracy is `8738133/131072`, the
`float` nearest to `200/3`, not `100 * c / n`; and for `c = n = 671091` the
`float` value of `100.0f * c / n` is `13107201/131072`, above `100`. -/
theorem db_recognize_accuracy_counterexample :
    (db_recognize sample_lib sample_db "faces").toOption.map
      (fun p => p.2.map (fun r => (r.num_correct, r.num_entries, r.accuracy)))
      = some [(2, 3, some (8738133 / 131072))] ∧
    (8738133 / 131072 : ℚ) ≠ 100 * 2 / 3 ∧
    f32_div (f32_mul 100 (f32_of_int 671091)) (f32_of_int 671091)
      = some (13107201 / 131072) ∧
    (100 : ℚ) < 13107201 / 131072 := by
  decide!

/-- Witness for C7: `sample_db` is reached by `db_construct` and `db_load`. -/
theorem rec_flag_implies_train_flag_witness :
    reachable sample_lib sample_db ∧
    rec_implies_train sample_db.pca ∧ rec_implies_train sample_db.lda ∧
    rec_implies_train sample_db.ica :=
  ⟨reachable.load _ _ sample_file (reachable.construct 1 0 0 sample_params) rfl,
   (rec_flag_implies_train_flag sample_lib sample_db
      (reachable.load _ _ sample_file (reachable.construct 1 0 0 sample_params) rfl)).1⟩

/-- C5, counterexample: with a reference matrix of zero columns
`nearest_neighbor` returns `-1`; `db_recognize`, run on a database whose
cached `P` has zero columns, reads `db->entries[-1]`. -/
theorem nearest_neighbor_empty_counterexample :
    nearest_neighbor ⟨1, 0, []⟩ ⟨1, 3, [-1, -1, 2]⟩ 0 sample_dist_L2 = -1 ∧
    fault_of (elem_at no_columns_db.entries (-1)) = some .out_of_bounds ∧
    fault_of (db_recognize sample_lib no_columns_db "faces") = some .out_of_bounds := by
  decide!

end FaceRec
